import Mathlib

/-!
Shallow embedding of the micromouse flood-fill maze solver
(`src/algo/ff/ff.c` and `src/algo/ff/ffv3.c`) and proofs about it.

Conventions shared by both C files:
* the grid is 16 × 16; cell coordinates are pairs `(x, y)` with `0 ≤ x, y < 16`;
* directions are `0 = NORTH (y+1)`, `1 = EAST (x+1)`, `2 = SOUTH (y-1)`,
  `3 = WEST (x-1)`;
* the goal region is the four cells `(7,7), (7,8), (8,7), (8,8)`;
* the distance sentinel for "unreachable" is `MAZE_WIDTH * MAZE_HEIGHT = 256`;
* run modes are `0 = SEARCH`, `1 = RETURN`, `2 = SPEED`.

The C `int distances[16][16]` array is embedded as a row-major nested list
(`DGrid`), wall and visited arrays as total functions.  C `int` distance
values are embedded as `Int`.  The unbounded C `while` loops are embedded
with an explicit fuel argument; for the plain breadth-first sweeps we prove
the chosen fuel always drains the queue, so the fuelled function computes
what the C loop, which runs until the queue is empty, computes.  The
exploration-weighted sweep of ff.c's `floodFillToStartWithExploration` does
not always terminate (its relaxation admits negative cycles); there the
fuelled embedding returns the state reached when fuel runs out, which is
enough to reason about the enqueue counter and about runs whose queue
provably drains early.
-/

/-- A grid cell, `(x, y)`. -/
abbrev Cell : Type := Nat × Nat

/-- The sentinel distance `MAZE_WIDTH * MAZE_HEIGHT` ("effectively infinity"). -/
def sentinel : Int := 256

/-- x-increment of a direction (`dx` in ff.c, `direction_delta[..].x` in ffv3.c). -/
def dxI (d : Nat) : Int :=
  match d with
  | 0 => 0
  | 1 => 1
  | 2 => 0
  | 3 => -1
  | _ => 0

/-- y-increment of a direction (`dy` in ff.c, `direction_delta[..].y` in ffv3.c). -/
def dyI (d : Nat) : Int :=
  match d with
  | 0 => 1
  | 1 => 0
  | 2 => -1
  | 3 => 0
  | _ => 0

/-- Bounds check on a cell (`is_within_bounds` in ffv3.c; inlined in ff.c). -/
def inB (c : Cell) : Bool := c.1 < 16 && c.2 < 16

/-- The in-bounds neighbor of `c` in direction `d`, if any.  Mirrors the C
pattern `nx = x + dx[dir]; ny = y + dy[dir];` followed by the bounds test
`nx >= 0 && nx < MAZE_WIDTH && ny >= 0 && ny < MAZE_HEIGHT`. -/
def nbr (c : Cell) (d : Nat) : Option Cell :=
  let nx : Int := (c.1 : Int) + dxI d
  let ny : Int := (c.2 : Int) + dyI d
  if 0 ≤ nx ∧ nx < 16 ∧ 0 ≤ ny ∧ ny < 16 then some (nx.toNat, ny.toNat) else none

/-- The raw coordinate step `(x + dx[d], y + dy[d])`, used by the C position
updates `posX += dx[direction]; posY += dy[direction]` (which in every
executed path follow a successful bounds check, so the truncating `toNat`
is never reached with a negative value). -/
def rawStep (c : Cell) (d : Nat) : Cell :=
  (((c.1 : Int) + dxI d).toNat, ((c.2 : Int) + dyI d).toNat)

/-- The opposite direction, `(dir + 2) % 4`. -/
def opp (d : Nat) : Nat := (d + 2) % 4

/-- The direction taking `a` to `b`, if any: the first `dir` in `0,1,2,3` with
`a.x + dx[dir] == b.x && a.y + dy[dir] == b.y` (the scan used by
`verifyShortestPath`, `followShortestPath` and the speed branches). -/
def dirTo (a b : Cell) : Option Nat :=
  let hit := fun d => (a.1 : Int) + dxI d == (b.1 : Int) && (a.2 : Int) + dyI d == (b.2 : Int)
  if hit 0 then some 0 else if hit 1 then some 1 else if hit 2 then some 2
  else if hit 3 then some 3 else none

/-- Goal-region membership (`isAtGoal` in ff.c, `is_at_goal` in ffv3.c):
`(x == 7 || x == 8) && (y == 7 || y == 8)`. -/
def isGoal (c : Cell) : Bool :=
  (c.1 == 7 || c.1 == 8) && (c.2 == 7 || c.2 == 8)

/-- The four goal cells, in the seeding order of ffv3.c's `flood_fill_goal`
(`x` outer loop from `GOAL_X1` to `GOAL_X2`, `y` inner). -/
def goalList : List Cell := [(7, 7), (7, 8), (8, 7), (8, 8)]

/-- Manhattan distance between cells, as computed with C `abs` on ints. -/
def manhattan (a b : Cell) : Int :=
  |(a.1 : Int) - (b.1 : Int)| + |(a.2 : Int) - (b.2 : Int)|

/-- Wall state: `walls[x][y][dir]`. -/
abbrev Walls : Type := Cell → Nat → Bool

/-- Visited state: `visited[x][y]`. -/
abbrev Visited : Type := Cell → Bool

/-- Write one wall flag: `walls[a.x][a.y][d] = b`. -/
def wset (w : Walls) (a : Cell) (d : Nat) (b : Bool) : Walls :=
  fun c dd => if c = a ∧ dd = d then b else w c dd

/-- Write a wall flag together with its mirror on the neighbor when the
neighbor is in bounds — the shared pattern of `updateWalls` and the move
failure branch in ff.c, and of `set_wall` in ffv3.c. -/
def pairSet (w : Walls) (a : Cell) (d : Nat) (b : Bool) : Walls :=
  match nbr a d with
  | some n => wset (wset w a d b) n (opp d) b
  | none => wset w a d b

/-- Mark a cell visited: `visited[c.x][c.y] = true`. -/
def vset (vis : Visited) (c : Cell) : Visited :=
  fun x => if x = c then true else vis x

/-- The wall state after maze initialization in both files: no interior
walls, and every outer boundary edge walled
(`initializeMaze` in ff.c, `init_maze` in ffv3.c — the ffv3 `set_wall`
mirror writes of the boundary loop all target out-of-bounds cells, so both
produce exactly this state). -/
def boundaryWalls : Walls := fun c d =>
  inB c &&
    ((d == 2 && c.2 == 0) || (d == 0 && c.2 == 15) ||
     (d == 3 && c.1 == 0) || (d == 1 && c.1 == 15))

/-- The visited state with no cell visited. -/
def noVisited : Visited := fun _ => false

/-- Row-major embedding of `int distances[16][16]`: outer index `x`,
inner index `y`. -/
abbrev DGrid : Type := List (List Int)

/-- Read `distances[c.x][c.y]`.  The default `256` is never read by any
embedded code path (all reads are bounds-guarded); it makes out-of-range
cells look unreachable, which keeps invariants uniform. -/
def dget (m : DGrid) (c : Cell) : Int := (m.getD c.1 []).getD c.2 256

/-- Write `distances[c.x][c.y] = e`. -/
def dset (m : DGrid) (c : Cell) (e : Int) : DGrid :=
  m.set c.1 ((m.getD c.1 []).set c.2 e)

/-- The grid with every distance at the sentinel (the reset loop opening
every flood fill). -/
def dfull : DGrid := List.replicate 16 (List.replicate 16 256)

/-- All 256 cells in row-major order (`x` outer, `y` inner), the iteration
order of every full-grid C loop. -/
def gridCells : List Cell :=
  (List.range 16).flatMap fun x => (List.range 16).map fun y => (x, y)

/-! ### The breadth-first sweep engine

Both files duplicate one queue-based relaxation loop
(`floodFill`, `floodFillToGoal`, `floodFillToStartWithExploration` in ff.c;
`flood_fill`, `flood_fill_goal` in ffv3.c).  `sweep` embeds that loop once,
parameterized by the relaxation value `rx du v` assigned to neighbor `v` of
a cell popped with distance `du` (`du + 1` for the plain fills; the
exploration-weighted value for `floodFillToStartWithExploration`).
`cnt` counts every store into the C queue array, seeds included. -/

/-- Queue/distance state of a sweep. -/
structure BfsSt where
  dist : DGrid
  q : List Cell
  cnt : Nat

/-- One direction of the relaxation body: skip on wall, skip out of bounds,
then `if (distances[nx][ny] > e) { distances[nx][ny] = e; enqueue; }`. -/
def relaxStep (rx : Int → Cell → Int) (w : Walls) (du : Int) (u : Cell)
    (d : Nat) (s : BfsSt) : BfsSt :=
  if w u d then s
  else
    match nbr u d with
    | none => s
    | some v =>
        let e := rx du v
        if e < dget s.dist v then ⟨dset s.dist v e, s.q ++ [v], s.cnt + 1⟩ else s

/-- The four-direction relaxation of one popped cell, directions `0,1,2,3`
in loop order.  `du` is the popped cell's distance, read once at pop time. -/
def relaxAll (rx : Int → Cell → Int) (w : Walls) (du : Int) (u : Cell)
    (s : BfsSt) : BfsSt :=
  relaxStep rx w du u 3 (relaxStep rx w du u 2 (relaxStep rx w du u 1
    (relaxStep rx w du u 0 s)))

/-- The sweep loop `while (qFront < qBack) { pop; relax 4 neighbors; }`,
with fuel.  Once the queue is empty it returns at once, so any fuel at least
the true iteration count gives the C loop's result. -/
def sweep (rx : Int → Cell → Int) (w : Walls) : Nat → BfsSt → BfsSt
  | 0, s => s
  | fuel + 1, s =>
      match s.q with
      | [] => s
      | u :: rest => sweep rx w fuel (relaxAll rx w (dget s.dist u) u ⟨s.dist, rest, s.cnt⟩)

/-- Plain relaxation: neighbor candidate value `d + 1`. -/
def rxPlain : Int → Cell → Int := fun du _ => du + 1

/-- Initial sweep state: every distance reset to the sentinel, then each
seed set to `0` and pushed. -/
def initSt (seeds : List Cell) : BfsSt :=
  { dist := seeds.foldl (fun m c => dset m c 0) dfull
    q := seeds
    cnt := seeds.length }

/-- Fuel that provably drains the queue of any plain sweep
(`sweep_drains` below). -/
def sweepFuel : Nat := 140000

/-- ff.c `floodFill(targetX, targetY)` body (also the body of ffv3.c's
`flood_fill`): plain single-source sweep from `t`. -/
def floodFill (w : Walls) (t : Cell) : DGrid :=
  (sweep rxPlain w sweepFuel (initSt [t])).dist

/-- ffv3.c `flood_fill(m, target)`: bounds-guarded; an out-of-bounds target
logs an error and leaves every distance at the sentinel (the reset has
already happened). -/
def flood_fill (w : Walls) (t : Cell) : DGrid :=
  if inB t then floodFill w t else dfull

/-- ffv3.c `flood_fill_goal`: multi-source plain sweep seeded with all four
goal cells at distance 0. -/
def flood_fill_goal (w : Walls) : DGrid :=
  (sweep rxPlain w sweepFuel (initSt goalList)).dist

/-- ffv3.c `flood_fill_start`: `flood_fill(m, (Point){0, 0})`. -/
def flood_fill_start (w : Walls) : DGrid := flood_fill w (0, 0)

/-- ff.c `floodFillToGoal`'s target choice: the goal cell at minimal
Manhattan distance from the current position, `<` scan keeping the first
minimum, in index order `(7,7), (7,8), (8,7), (8,8)`. -/
def chooseGoalTarget (pos : Cell) : Cell :=
  let d0 := manhattan pos (7, 7)
  let d1 := manhattan pos (7, 8)
  let d2 := manhattan pos (8, 7)
  let d3 := manhattan pos (8, 8)
  let m1 := if d1 < d0 then d1 else d0
  let i1 := if d1 < d0 then 1 else 0
  let m2 := if d2 < m1 then d2 else m1
  let i2 := if d2 < m1 then 2 else i1
  let i3 := if d3 < m2 then 3 else i2
  match i3 with
  | 0 => (7, 7)
  | 1 => (7, 8)
  | 2 => (8, 7)
  | _ => (8, 8)

/-- ff.c `floodFillToGoal`: single-source flood fill from the chosen
nearest goal cell. -/
def floodFillToGoal (w : Walls) (pos : Cell) : DGrid :=
  floodFill w (chooseGoalTarget pos)

/-- ff.c `floodFillToStart`: `floodFill(0, 0)`. -/
def floodFillToStart (w : Walls) : DGrid := floodFill w (0, 0)

/-! ### The exploration-weighted sweep (ff.c `floodFillToStartWithExploration`) -/

/-- The minimum Manhattan distance from `c` to a goal cell, as computed by
the inner loop of `floodFillToStartWithExploration` (local `distances[]`
array, `<` fold from initial `MAZE_WIDTH + MAZE_HEIGHT`). -/
def minGoalDist (c : Cell) : Int :=
  [manhattan c (7, 7), manhattan c (7, 8), manhattan c (8, 7), manhattan c (8, 8)].foldl
    (fun m d => if d < m then d else m) 32

/-- The exploration relaxation of ff.c lines 448–476: neighbor candidate
value `d + 1 - explorationWeight - goalProximity` where unvisited neighbors
get `explorationWeight = 2` and `goalProximity = (32 - minGoalDist) / 2`. -/
def rxExpl (vis : Visited) : Int → Cell → Int := fun du v =>
  let explorationWeight : Int := if vis v then 0 else 2
  let goalProximity : Int := if vis v then 0 else (32 - minGoalDist v) / 2
  du + 1 - explorationWeight - goalProximity

/-- The final normalization of `floodFillToStartWithExploration`: find the
minimum distance with a `<` fold starting from `0`, and if it is negative
shift every cell up by it. -/
def normalizeD (m : DGrid) : DGrid :=
  let mn := gridCells.foldl (fun a c => if dget m c < a then dget m c else a) 0
  if mn < 0 then gridCells.foldl (fun acc c => dset acc c (dget acc c - mn)) m else m

/-- ff.c `floodFillToStartWithExploration`: the exploration-weighted sweep
from `(0,0)` followed by normalization.  The C loop does not terminate when
the weights create a negative cycle (see the C7 analysis); the embedding
returns the fuel-limited state, which agrees with the C loop whenever the
queue provably drains first. -/
def floodFillToStartWithExploration (w : Walls) (vis : Visited) : DGrid :=
  normalizeD (sweep (rxExpl vis) w sweepFuel (initSt [(0, 0)])).dist

/-! ### Ground truth: open-edge hop distance -/

/-- One open-edge hop: some direction `d < 4` with no recorded wall at `u`
and `v` the in-bounds neighbor of `u` that way. -/
def AdjB (w : Walls) (u v : Cell) : Prop :=
  ∃ d, d < 4 ∧ w u d = false ∧ nbr u d = some v

instance (w : Walls) (u v : Cell) : Decidable (AdjB w u v) := by
  unfold AdjB
  infer_instance

/-- `ReachN w S n c`: some walk of exactly `n` open-edge hops leads from a
cell satisfying `S` to `c`. -/
def ReachN (w : Walls) (S : Cell → Prop) (n : Nat) (c : Cell) : Prop :=
  ∃ g : Nat → Cell, S (g 0) ∧ (∀ i, i < n → AdjB w (g i) (g (i + 1))) ∧ g n = c

/-- `c` is reachable from the source set through open edges. -/
def Reachable (w : Walls) (S : Cell → Prop) (c : Cell) : Prop :=
  ∃ n, ReachN w S n c

/-! ### The ff.c engine state and operations

`StateFF` collects ff.c's module-level mutable globals (`posX/posY`,
`direction`, `currentMode`, `goalFound`, `explorePhaseComplete`, the maze
arrays, `fastestPath`/`pathLength`) together with the `static bool
justReachedGoal` of `moveToNextCellReturn` (`jrg`).  The `fastestPath`
array is embedded as the list of its first `pathLength` entries. -/

structure StateFF where
  pos : Cell
  dir : Nat
  mode : Nat
  goalFound : Bool
  explore : Bool
  jrg : Bool
  walls : Walls
  vis : Visited
  dist : DGrid
  path : List Cell

/-- Actuation commands issued to the robot API. -/
inductive ActT where
  | turnR
  | turnL
  | moveF
deriving DecidableEq

/-- Orientation change of one actuation (`direction = (direction + 1) % 4`
after `API_turnRight()`, `(direction + 3) % 4` after `API_turnLeft()`). -/
def applyTurn (dir : Nat) (a : ActT) : Nat :=
  match a with
  | ActT.turnR => (dir + 1) % 4
  | ActT.turnL => (dir + 3) % 4
  | ActT.moveF => dir

/-- The turn loop `while (direction != minDir) { diff = (minDir - direction
+ 4) % 4; ... }` shared by both files: one pass issues one right turn for
`diff = 1`, one left turn for `diff = 3`, and two right turns otherwise;
for orientations in `0..3` a single pass reaches the target, so the loop
body is its own closed form. -/
def turnActs (cur target : Nat) : List ActT :=
  if cur = target then []
  else
    let diff := ((((target : Int) - cur) + 4) % 4).toNat
    if diff = 1 then [ActT.turnR]
    else if diff = 3 then [ActT.turnL]
    else [ActT.turnR, ActT.turnR]

/-- ff.c `updateWalls`: for each of front/right/left, either set or
explicitly clear the wall flag at the current cell and its in-bounds
mirror, according to the sensed boolean. -/
def updateWallsFF (f r l : Bool) (pos : Cell) (dir : Nat) (w : Walls) : Walls :=
  let w1 := pairSet w pos dir f
  let w2 := pairSet w1 pos ((dir + 1) % 4) r
  pairSet w2 pos ((dir + 3) % 4) l

/-- The exploration bonus array of `moveToNextCell` (ff.c lines 519-538):
in SEARCH mode an open, in-bounds, unvisited neighbor direction gets
bonus 1, every other entry stays 0. -/
def bonusFF (mode : Nat) (w : Walls) (vis : Visited) (pos : Cell) (d : Nat) : Int :=
  if mode = 0 then
    if w pos d then 0
    else
      match nbr pos d with
      | none => 0
      | some n => if vis n then 0 else 1
  else 0

/-- One direction of the `moveToNextCell` scan (ff.c lines 540-560): skip
walls and out-of-bounds, and keep a strict improvement of
`distances[nx][ny] - bonus[dir]`. -/
def chooseStepFF (w : Walls) (vis : Visited) (D : DGrid) (mode : Nat)
    (pos : Cell) (acc : Int × Option Nat) (d : Nat) : Int × Option Nat :=
  if w pos d then acc
  else
    match nbr pos d with
    | none => acc
    | some n =>
        let adj := dget D n - bonusFF mode w vis pos d
        if adj < acc.1 then (adj, some d) else acc

/-- The direction scan of `moveToNextCell`: `minDist = 256; minDir = -1;`
then directions `0..3` in loop order. -/
def chooseDirScan (w : Walls) (vis : Visited) (D : DGrid) (mode : Nat)
    (pos : Cell) : Option Nat :=
  (chooseStepFF w vis D mode pos (chooseStepFF w vis D mode pos
    (chooseStepFF w vis D mode pos (chooseStepFF w vis D mode pos
      ((256 : Int), none) 0) 1) 2) 3).2

/-- ff.c `moveToNextCell`: scan for the best direction (error return if
none), turn, then move; on a blocked move record the wall pair and rerun
the mode's flood fill.  Returns the new state and the actuations issued. -/
def moveToNextCellFF (blocked : Bool) (s : StateFF) : StateFF × List ActT :=
  match chooseDirScan s.walls s.vis s.dist s.mode s.pos with
  | none => (s, [])
  | some d =>
      let acts := turnActs s.dir d
      let dir' := acts.foldl applyTurn s.dir
      if blocked then
        let w' := pairSet s.walls s.pos d true
        let dist' :=
          if s.mode = 0 then floodFillToGoal w' s.pos
          else if s.mode = 1 then floodFillToStart w' else s.dist
        ({ s with dir := dir', walls := w', dist := dist' }, acts ++ [ActT.moveF])
      else
        ({ s with dir := dir', pos := rawStep s.pos d }, acts ++ [ActT.moveF])

/-- Number of visited cells (`getMazeCoverage` numerator). -/
def visitedCount (vis : Visited) : Nat := gridCells.countP vis

/-- `getMazeCoverage() > 0.75`: the float quotient `count / 256.0` and the
literal `0.75` are exact dyadic values, so the comparison is exactly
`count > 192`. -/
def coverageHigh (vis : Visited) : Bool := 192 < visitedCount vis

/-- The candidate count of `criticalPathsExplored` (ff.c lines 640-669):
cells with `distances[x][y] <= distances[0][0]`, not visited, having some
open in-bounds neighbor exactly one hop closer. -/
def unvisitedInPath (w : Walls) (vis : Visited) (D : DGrid) : Nat :=
  gridCells.countP fun c =>
    decide (dget D c ≤ dget D (0, 0)) && !(vis c) &&
      ((List.range 4).any fun d =>
        if w c d then false
        else
          match nbr c d with
          | none => false
          | some n => dget D n == dget D c - 1)

/-- ff.c `criticalPathsExplored`: reruns `floodFillToGoal` (mutating the
distance field) and then reports whether no candidate shortest-path cell is
unvisited. -/
def criticalPathsExploredFF (s : StateFF) : Bool × StateFF :=
  let D := floodFillToGoal s.walls s.pos
  (unvisitedInPath s.walls s.vis D == 0, { s with dist := D })

/-- The scan-turn-move tail of ff.c `moveToNextCellReturn`: the plain
direction scan, turn and move, with wall recording and re-fill on a blocked
move.  The error branch (no direction) reruns `floodFillToStart` and
holds. -/
def moveReturnScan (blocked : Bool) (s2 : StateFF) : StateFF × List ActT :=
  match chooseDirScan s2.walls s2.vis s2.dist 1 s2.pos with
  | none => ({ s2 with dist := floodFillToStart s2.walls }, [])
  | some d =>
      let acts := turnActs s2.dir d
      let dir' := acts.foldl applyTurn s2.dir
      if blocked then
        let w' := pairSet s2.walls s2.pos d true
        let dist' :=
          if s2.explore then floodFillToStart w'
          else floodFillToStartWithExploration w' s2.vis
        ({ s2 with dir := dir', walls := w', dist := dist' }, acts ++ [ActT.moveF])
      else
        ({ s2 with dir := dir', pos := rawStep s2.pos d }, acts ++ [ActT.moveF])

/-- ff.c `moveToNextCellReturn` head: the `justReachedGoal` re-sense and the
coverage gate (short-circuit `coverage > 0.75 || criticalPathsExplored() ||
at start`) selecting the plain or exploration-weighted flood fill, then the
scan-turn-move tail. -/
def moveToNextCellReturnFF (f r l : Bool) (blocked : Bool) (s : StateFF) :
    StateFF × List ActT :=
  let s0 := if s.jrg then
      { s with walls := updateWallsFF f r l s.pos s.dir s.walls, jrg := false }
    else s
  let gate :=
    if coverageHigh s0.vis then (true, s0)
    else
      let c := criticalPathsExploredFF s0
      if c.1 then (true, c.2) else (decide (c.2.pos = ((0, 0) : Cell)), c.2)
  let s1 := gate.2
  let s2 :=
    if gate.1 then { s1 with explore := true, dist := floodFillToStart s1.walls }
    else { s1 with dist := floodFillToStartWithExploration s1.walls s1.vis }
  moveReturnScan blocked s2

/-- One direction of the `computeShortestPath` scan (ff.c lines 877-895). -/
def scanStepFF (w : Walls) (D : DGrid) (c : Cell) (acc : Int × Option Cell)
    (d : Nat) : Int × Option Cell :=
  if w c d then acc
  else
    match nbr c d with
    | none => acc
    | some n => if dget D n < acc.1 then (dget D n, some n) else acc

/-- The neighbor scan of ff.c `computeShortestPath` (lines 877-895):
`minDist = 256`, keep the first strict improvement of `distances[nx][ny]`
over open in-bounds directions.  Note it does not compare against the
current cell's own distance. -/
def scanNextFF (w : Walls) (D : DGrid) (c : Cell) : Option Cell :=
  (scanStepFF w D c (scanStepFF w D c (scanStepFF w D c (scanStepFF w D c
    ((256 : Int), none) 0) 1) 2) 3).2

/-- The greedy path loop of ff.c `computeShortestPath` (lines 872-911):
while not at a goal cell, append the scanned neighbor; if the scan finds
none, log the failure and return with the partial path as it stands.
The C loop is unbounded; fuel 600 covers every run evaluated here. -/
def ffWalk (w : Walls) (D : DGrid) : Nat → Cell → List Cell → List Cell
  | 0, _, acc => acc
  | fuel + 1, c, acc =>
      if isGoal c then acc
      else
        match scanNextFF w D c with
        | none => acc
        | some n => ffWalk w D fuel n (acc ++ [n])

/-- ff.c `computeShortestPath` as a path value: flood fill to the chosen
goal, then walk greedily from `(0,0)` starting with path `[(0,0)]`. -/
def computeShortestPathFF (w : Walls) (pos : Cell) : List Cell :=
  ffWalk w (floodFillToGoal w pos) 600 (0, 0) [(0, 0)]

/-- ff.c `computeShortestPath` as a state transformer: writes the distance
field and the path. -/
def applyComputeShortestPathFF (s : StateFF) : StateFF :=
  let D := floodFillToGoal s.walls s.pos
  { s with dist := D, path := ffWalk s.walls D 600 (0, 0) [(0, 0)] }

/-- The per-step check of ff.c `verifyShortestPath` (lines 920-960): from
`(0,0)`, each successive path cell must be an adjacent cell (a direction is
found) with no wall recorded in that direction. -/
def ffVerifyGo (w : Walls) : Cell → List Cell → Bool
  | _, [] => true
  | c, t :: rest =>
      match dirTo c t with
      | none => false
      | some d => if w c d then false else ffVerifyGo w t rest

/-- ff.c `verifyShortestPath` as the boolean "verification successful"
outcome of its logging; the function itself changes no state and its
result gates nothing in ff.c's `main`. -/
def verifyShortestPathFF (w : Walls) (p : List Cell) : Bool :=
  ffVerifyGo w (0, 0) p.tail

/-- ff.c `recomputePathIfNeeded`: re-sense walls, and if the recorded walls
now block the first path move, rerun the flood fill and recompute (the
inner `verifyShortestPath` call only logs). -/
def recomputePathIfNeededFF (f r l : Bool) (s : StateFF) : StateFF :=
  let s1 := { s with walls := updateWallsFF f r l s.pos s.dir s.walls }
  let needs :=
    if 1 < s1.path.length then
      match dirTo s1.pos (s1.path.getD 1 (0, 0)) with
      | some d => s1.walls s1.pos d
      | none => false
    else false
  if needs then applyComputeShortestPathFF { s1 with dist := floodFillToGoal s1.walls s1.pos }
  else s1

/-- ff.c `prepareForSpeedRun`: bail out unless at the start; face north,
re-sense walls, then `recomputePathIfNeeded`.  The display calls change no
core state. -/
def prepareForSpeedRunFF (f r l f2 r2 l2 : Bool) (s : StateFF) : StateFF :=
  if s.pos ≠ (0, 0) then s
  else
    let s1 := { s with dir := 0 }
    let s2 := { s1 with walls := updateWallsFF f r l s1.pos 0 s1.walls }
    recomputePathIfNeededFF f2 r2 l2 s2

/-- The replay loop of ff.c `followShortestPath` (lines 1020-1105): for
each remaining path cell, find the move direction (bail out if none), turn,
and move; a blocked move aborts immediately with position unchanged.
`bs` supplies each `API_moveForward()` outcome (`true` = blocked). -/
def ffFollowGo (w : Walls) : List Cell → List Bool → Cell → Nat → Cell × Nat
  | [], _, pos, dir => (pos, dir)
  | t :: rest, bs, pos, dir =>
      match dirTo pos t with
      | none => (pos, dir)
      | some d =>
          let dir' := (turnActs dir d).foldl applyTurn dir
          if bs.headD false then (pos, dir')
          else ffFollowGo w rest bs.tail t dir'

/-- ff.c `followShortestPath`: face north, re-sense walls, then replay the
path blindly.  Its `updateDisplay` calls run in SPEED mode, where the
display changes no core state. -/
def followShortestPathFF (f r l : Bool) (bs : List Bool) (s : StateFF) : StateFF :=
  let s1 := { s with dir := 0 }
  let w' := updateWallsFF f r l s1.pos 0 s1.walls
  let res := ffFollowGo w' s1.path.tail bs s1.pos 0
  { s1 with walls := w', pos := res.1, dir := res.2 }

/-- Per-cell body of ff.c `updateDisplay` (lines 1114-1188) restricted to
its effect on core state: in RETURN mode before the exploration phase
completes, every unvisited non-goal non-current cell triggers
`floodFillToGoal` (to test membership in a potential shortest path — a pure
read) and then the "restoring" fill, which with `explorePhaseComplete`
false is `floodFillToStartWithExploration`.  All other cells only emit
display commands. -/
def displayCellFF (s : StateFF) (c : Cell) : StateFF :=
  if c = s.pos then s
  else if isGoal c then s
  else if s.mode = 1 ∧ s.explore = false then
    if s.vis c then s
    else
      let s1 := { s with dist := floodFillToGoal s.walls s.pos }
      if s1.explore then { s1 with dist := floodFillToStart s1.walls }
      else { s1 with dist := floodFillToStartWithExploration s1.walls s1.vis }
  else s

/-- ff.c `updateDisplay` as a state transformer: the row-major loop of
`displayCellFF` (the wall-drawing loop and SPEED-mode path highlight only
emit display commands). -/
def updateDisplayFF (s : StateFF) : StateFF := gridCells.foldl displayCellFF s

/-- The SEARCH-mode goal branch of ff.c `main` (lines 102-125): record the
goal, switch to RETURN, mark the four goal cells visited, flood fill to the
start, and update the display. -/
def ffGoalBranch (s : StateFF) : StateFF :=
  let vis' := vset (vset (vset (vset s.vis (7, 7)) (7, 8)) (8, 7)) (8, 8)
  let s1 := { s with goalFound := true, mode := 1, vis := vis', explore := false,
                     dist := floodFillToStart s.walls }
  updateDisplayFF s1

/-- The RETURN-mode at-start branch of ff.c `main` (lines 133-150): compute
the shortest path, verify it (logging only), evaluate coverage and
`criticalPathsExplored` (which rewrites the distance field; its result is
only logged), prepare for the speed run, and enter SPEED mode. -/
def ffReturnAtStartBranch (f r l f2 r2 l2 : Bool) (s : StateFF) : StateFF :=
  let s1 := applyComputeShortestPathFF s
  let s2 := (criticalPathsExploredFF s1).2
  let s3 := prepareForSpeedRunFF f r l f2 r2 l2 s2
  { s3 with mode := 2 }

/-- The SPEED-mode branch of ff.c `main` (lines 157-183): prepare again,
abort if the first path move is walled, otherwise replay the path.
`fastestPath[1]` is read unconditionally; with `pathLength <= 1` the
zero-initialized array yields `(0,0)`, matching the list default. -/
def ffSpeedBranch (f r l f2 r2 l2 f3 r3 l3 : Bool) (bs : List Bool) (s : StateFF) :
    StateFF :=
  let s1 := prepareForSpeedRunFF f r l f2 r2 l2 s
  match dirTo s1.pos (s1.path.getD 1 (0, 0)) with
  | some d => if s1.walls s1.pos d then s1 else followShortestPathFF f3 r3 l3 bs s1
  | none => followShortestPathFF f3 r3 l3 bs s1

/-- The external inputs consumed by one iteration of ff.c's `main` loop:
the reset flag, the sensor triple at the current pose (reused by the
`justReachedGoal` re-sense at the same pose), the `API_moveForward` result
for the search/return move, the sensor triples of `prepareForSpeedRun`
(`f2..`), `recomputePathIfNeeded` (`f3..`) and `followShortestPath`
(`f4..`), and the per-move results of the speed replay. -/
structure FFIn where
  wasReset : Bool
  f : Bool
  r : Bool
  l : Bool
  blocked : Bool
  f2 : Bool
  r2 : Bool
  l2 : Bool
  f3 : Bool
  r3 : Bool
  l3 : Bool
  f4 : Bool
  r4 : Bool
  l4 : Bool
  blockeds : List Bool

/-- The reset branch of ff.c `main` (lines 76-90) followed by
`initializeMaze`: pose, mode, flags, walls, visited and distances are
reinitialized; `explorePhaseComplete` and the static `justReachedGoal`
persist (the branch does not touch them). -/
def ffResetApply (s : StateFF) : StateFF :=
  { pos := (0, 0), dir := 0, mode := 0, goalFound := false, explore := s.explore,
    jrg := s.jrg, walls := boundaryWalls, vis := vset noVisited (0, 0),
    dist := floodFillToGoal boundaryWalls (0, 0), path := [] }

/-- The state at ff.c program start (globals plus `initializeMaze` plus
`explorePhaseComplete = false` from `main`). -/
def initStateFF : StateFF :=
  { pos := (0, 0), dir := 0, mode := 0, goalFound := false, explore := false,
    jrg := true, walls := boundaryWalls, vis := vset noVisited (0, 0),
    dist := floodFillToGoal boundaryWalls (0, 0), path := [] }

/-- The body of one iteration of ff.c's `main` loop after the optional
reset: sense, mark visited, display, then the mode branch. -/
def ffTickBranch (i : FFIn) (sa : StateFF) : StateFF :=
  let sb := { sa with walls := updateWallsFF i.f i.r i.l sa.pos sa.dir sa.walls }
  let sc := { sb with vis := vset sb.vis sb.pos }
  let sd := updateDisplayFF sc
  if sd.mode = 0 then
    if isGoal sd.pos then ffGoalBranch sd
    else (moveToNextCellFF i.blocked { sd with dist := floodFillToGoal sd.walls sd.pos }).1
  else if sd.mode = 1 then
    if sd.pos = ((0, 0) : Cell) then ffReturnAtStartBranch i.f2 i.r2 i.l2 i.f3 i.r3 i.l3 sd
    else (moveToNextCellReturnFF i.f i.r i.l i.blocked sd).1
  else ffSpeedBranch i.f2 i.r2 i.l2 i.f3 i.r3 i.l3 i.f4 i.r4 i.l4 i.blockeds sd

/-- One iteration of ff.c's `main` loop: the optional reset, then the
sensed branch step. -/
def ffTick (i : FFIn) (s : StateFF) : StateFF :=
  ffTickBranch i (if i.wasReset then ffResetApply s else s)

/-! ### The ffv3.c engine state and operations -/

/-- ffv3.c `MouseState` and `Maze` combined: pose, mode, flags, path, and
the maze arrays. -/
structure StateV3 where
  pos : Cell
  dir : Nat
  mode : Nat
  goal_found : Bool
  walls : Walls
  vis : Visited
  dist : DGrid
  path : List Cell

/-- ffv3.c `set_wall`: no-op for an out-of-bounds cell, else set the flag
and its mirror on the in-bounds neighbor. -/
def set_wall (w : Walls) (p : Cell) (d : Nat) : Walls :=
  if inB p then pairSet w p d true else w

/-- ffv3.c `has_wall`: out-of-bounds queries count as walls. -/
def has_wall (w : Walls) (p : Cell) (d : Nat) : Bool :=
  if inB p then w p d else true

/-- ffv3.c `update_walls_current_cell`: `set_wall` for each sensed wall
(front, right, left); unlike ff.c, nothing is ever cleared. -/
def update_walls_v3 (f r l : Bool) (pos : Cell) (dir : Nat) (w : Walls) : Walls :=
  let w1 := if f then set_wall w pos dir else w
  let w2 := if r then set_wall w1 pos ((dir + 1) % 4) else w1
  if l then set_wall w2 pos ((dir + 3) % 4) else w2

/-- One direction of ffv3.c's `choose_next_direction` scan: skip walls and
out-of-bounds; in SEARCH mode unvisited neighbors get their distance
reduced by 1; keep a strict improvement. -/
def chooseStepV3 (s : StateV3) (acc : Int × Option Nat) (d : Nat) : Int × Option Nat :=
  if has_wall s.walls s.pos d then acc
  else
    match nbr s.pos d with
    | none => acc
    | some n =>
        let nd := dget s.dist n
        let adj := if s.mode = 0 ∧ s.vis n = false then nd - 1 else nd
        if adj < acc.1 then (adj, some d) else acc

/-- ffv3.c `choose_next_direction`: directions `0..3` in loop order with
the initial bound `INVALID_DISTANCE + 10 = 266`; fall back to the opposite
of the current orientation when nothing is found. -/
def choose_next_direction (s : StateV3) : Nat :=
  match (chooseStepV3 s (chooseStepV3 s (chooseStepV3 s (chooseStepV3 s
      ((266 : Int), none) 0) 1) 2) 3).2 with
  | some d => d
  | none => opp s.dir

/-- ffv3.c `move_forward_update_state`: choose, turn, move; a blocked move
records the wall with `set_wall` at the current pose and reruns the active
mode's flood fill, leaving the position unchanged. -/
def move_forward_update_state (blocked : Bool) (s : StateV3) : StateV3 × List ActT :=
  let d := choose_next_direction s
  let acts := turnActs s.dir d
  let dir' := acts.foldl applyTurn s.dir
  if blocked then
    let w' := set_wall s.walls s.pos dir'
    let dist' :=
      if s.mode = 0 then flood_fill_goal w'
      else if s.mode = 1 then flood_fill_start w' else s.dist
    ({ s with dir := dir', walls := w', dist := dist' }, acts ++ [ActT.moveF])
  else ({ s with dir := dir', pos := rawStep s.pos dir' }, acts ++ [ActT.moveF])

/-- One direction of the `compute_shortest_path` scan (ffv3.c lines 567-579). -/
def scanStepV3 (w : Walls) (D : DGrid) (c : Cell) (acc : Int × Option Cell)
    (d : Nat) : Int × Option Cell :=
  if has_wall w c d then acc
  else
    match nbr c d with
    | none => acc
    | some n => if dget D n < acc.1 then (dget D n, some n) else acc

/-- The neighbor scan of ffv3.c `compute_shortest_path` (lines 563-579):
`min_dist` starts at the current cell's own distance, so only neighbors
strictly closer than the current cell qualify; the `<` scan keeps the first
minimum in direction order `0,1,2,3`. -/
def v3NextCell (w : Walls) (D : DGrid) (c : Cell) : Option Cell :=
  (scanStepV3 w D c (scanStepV3 w D c (scanStepV3 w D c (scanStepV3 w D c
    (dget D c, none) 0) 1) 2) 3).2

/-- The trace loop of ffv3.c `compute_shortest_path` (lines 562-604): while
not at a goal cell, move to the scanned neighbor; no next step, or a path
about to exceed `MAX_CELLS`, empties the path and returns.  The loop is
unbounded in C; `compute_shortest_path_fuel_enough` shows fuel 300 is never
exhausted on the field the function computes. -/
def v3Walk (w : Walls) (D : DGrid) : Nat → Cell → List Cell → List Cell
  | 0, _, _ => []
  | fuel + 1, c, acc =>
      if isGoal c then acc
      else
        match v3NextCell w D c with
        | none => []
        | some n => if acc.length < 256 then v3Walk w D fuel n (acc ++ [n]) else []

/-- ffv3.c `compute_shortest_path` as a path value: flood fill from the
goal region, return the empty path if the start is unreachable, else trace
greedily from `(0,0)`. -/
def compute_shortest_path (w : Walls) : List Cell :=
  let D := flood_fill_goal w
  if dget D (0, 0) == 256 then [] else v3Walk w D 300 (0, 0) [(0, 0)]

/-- ffv3.c `compute_shortest_path` as a state transformer: writes the
distance field (via its `flood_fill_goal` call) and the path. -/
def applyComputePathV3 (s : StateV3) : StateV3 :=
  { s with dist := flood_fill_goal s.walls, path := compute_shortest_path s.walls }

/-- The per-cell checks of ffv3.c `verify_path_exploration` (lines 619-653),
in source order: bounds, visited, and (from the second cell on) a known-open
transition from the previous cell. -/
def v3VerifyGo (w : Walls) (vis : Visited) : Option Cell → List Cell → Bool
  | _, [] => true
  | prev, c :: rest =>
      if !(inB c) then false
      else if !(vis c) then false
      else
        match prev with
        | none => v3VerifyGo w vis (some c) rest
        | some pr =>
            match dirTo pr c with
            | none => false
            | some d => if has_wall w pr d then false else v3VerifyGo w vis (some c) rest

/-- ffv3.c `verify_path_exploration`: paths of length at most 1 fail,
otherwise every cell must pass `v3VerifyGo`. -/
def verify_path_exploration (s : StateV3) : Bool :=
  if s.path.length ≤ 1 then false
  else v3VerifyGo s.walls s.vis none s.path

/-- The RETURN-mode at-start branch of ffv3.c `main` (lines 138-183):
re-sense, compute the shortest path; if a path was found and verifies,
enter SPEED; if it fails verification, flood fill toward the first
unvisited path cell (defaulting to the current position) and re-enter
SEARCH; if no path was found, flood fill to the goal and re-enter SEARCH. -/
def returnAtStartV3 (f r l : Bool) (s : StateV3) : StateV3 :=
  let s0 := { s with walls := update_walls_v3 f r l s.pos s.dir s.walls }
  let s1 := applyComputePathV3 s0
  if 0 < s1.path.length then
    if verify_path_exploration s1 then { s1 with mode := 2 }
    else
      let t := (s1.path.find? fun c => !(s1.vis c)).getD s1.pos
      { s1 with dist := flood_fill s1.walls t, mode := 0 }
  else { s1 with dist := flood_fill_goal s1.walls, mode := 0 }

/-- The replay loop of ffv3.c `follow_shortest_path` (lines 677-728): find
the move direction (bail out if none), turn, move; a blocked move records
the wall at the current pose with `set_wall` and aborts. -/
def v3FollowGo : Walls → List Cell → List Bool → Cell → Nat → Walls × Cell × Nat
  | w, [], _, pos, dir => (w, pos, dir)
  | w, t :: rest, bs, pos, dir =>
      match dirTo pos t with
      | none => (w, pos, dir)
      | some d =>
          let dir' := (turnActs dir d).foldl applyTurn dir
          if bs.headD false then (set_wall w pos dir', pos, dir')
          else v3FollowGo w rest bs.tail t dir'

/-- ffv3.c `follow_shortest_path`: refuse unless at the start; normalize the
orientation to north; do nothing more for trivial paths; else replay. -/
def follow_shortest_path (bs : List Bool) (s : StateV3) : StateV3 :=
  if s.pos ≠ ((0, 0) : Cell) then s
  else
    let dir0 := (turnActs s.dir 0).foldl applyTurn s.dir
    if s.path.length ≤ 1 then { s with dir := dir0 }
    else
      let res := v3FollowGo s.walls s.path.tail bs s.pos dir0
      { s with walls := res.1, pos := res.2.1, dir := res.2.2 }

/-- ffv3.c `update_display` as a state transformer: the function takes its
`MouseState` and `Maze` through `const` pointers and only issues API
display calls, so it is the identity on the engine state. -/
def update_displayV3 (s : StateV3) : StateV3 := s

/-- The external inputs consumed by one iteration of ffv3.c's `main` loop:
reset flag, the sensor triple of the tick-top `update_walls_current_cell`,
the move result, the sensor triple of the RETURN-at-start branch's
re-sense, and the per-move results of a speed replay. -/
structure V3In where
  wasReset : Bool
  f : Bool
  r : Bool
  l : Bool
  blocked : Bool
  f2 : Bool
  r2 : Bool
  l2 : Bool
  blockeds : List Bool

/-- The state after ffv3.c `init_simulation`: `init_maze`, `init_mouse`,
and the initial `flood_fill_goal`. -/
def initStateV3 : StateV3 :=
  { pos := (0, 0), dir := 0, mode := 0, goal_found := false,
    walls := boundaryWalls, vis := vset noVisited (0, 0),
    dist := flood_fill_goal boundaryWalls, path := [] }

/-- The body of one iteration of ffv3.c's `main` loop after the optional
reset: sense, mark visited, display (a no-op on state), then the mode
branch. -/
def v3TickBranch (i : V3In) (sa : StateV3) : StateV3 :=
  let sb := { sa with walls := update_walls_v3 i.f i.r i.l sa.pos sa.dir sa.walls }
  let sc := update_displayV3 { sb with vis := vset sb.vis sb.pos }
  if sc.mode = 0 then
    if isGoal sc.pos then
      { sc with goal_found := true, mode := 1, dist := flood_fill_start sc.walls }
    else (move_forward_update_state i.blocked { sc with dist := flood_fill_goal sc.walls }).1
  else if sc.mode = 1 then
    if sc.pos = ((0, 0) : Cell) then returnAtStartV3 i.f2 i.r2 i.l2 sc
    else (move_forward_update_state i.blocked { sc with dist := flood_fill_start sc.walls }).1
  else follow_shortest_path i.blockeds sc

/-- One iteration of ffv3.c's `main` loop: the optional reset (a full
`init_simulation`), then the sensed branch step. -/
def v3Tick (i : V3In) (s : StateV3) : StateV3 :=
  v3TickBranch i (if i.wasReset then initStateV3 else s)

/-! ### Specification-side definitions

These transcribe sentences of the specification, for comparison with the
embedded code. -/

/-- The open in-bounds neighbors of `c`, in direction order `0,1,2,3`. -/
def openNbrs (w : Walls) (c : Cell) : List Cell :=
  (List.range 4).filterMap fun d => if has_wall w c d then none else nbr c d

/-- Keep the first minimum while scanning candidate cells in order. -/
def specStep (D : DGrid) (acc : Option Cell) (v : Cell) : Option Cell :=
  match acc with
  | none => some v
  | some b => if dget D v < dget D b then some v else acc

/-- Transcription of the §4.5 step rule: "moving to the open neighbor with
strictly smaller distance than the current cell (ties broken by the same
fixed direction priority)": among open neighbors strictly below the current
cell's distance, the first minimum in direction order. -/
def specChoose (w : Walls) (D : DGrid) (c : Cell) : Option Cell :=
  ((openNbrs w c).filter fun v => dget D v < dget D c).foldl (specStep D) none

/-- Transcription of the §4.5 walk: append such neighbors "until a goal
cell is reached", and fail with an empty path when no strictly-improving
open neighbor exists (the `MAX_CELLS` guard and the fuel mirror
`compute_shortest_path`). -/
def specGreedyWalk (w : Walls) (D : DGrid) : Nat → Cell → List Cell → List Cell
  | 0, _, _ => []
  | fuel + 1, c, acc =>
      if isGoal c then acc
      else
        match specChoose w D c with
        | none => []
        | some n => if acc.length < 256 then specGreedyWalk w D fuel n (acc ++ [n]) else []

/-- The §4.5 `computeShortestPath` contract as a whole, over the
goal-rooted field of `flood_fill_goal`. -/
def specGreedy (w : Walls) : List Cell :=
  let D := flood_fill_goal w
  if dget D (0, 0) == 256 then [] else specGreedyWalk w D 300 (0, 0) [(0, 0)]

/-- Wall symmetry (decidable form): for every in-bounds cell and direction
with an in-bounds neighbor, the flag equals the neighbor's mirrored flag. -/
def WallSym (w : Walls) : Prop :=
  ∀ x < 16, ∀ y < 16, ∀ d < 4,
    (nbr (x, y) d).all (fun nb => w (x, y) d == w nb (opp d)) = true

instance (w : Walls) : Decidable (WallSym w) := by
  unfold WallSym
  infer_instance

/-- Every boundary edge of the grid holds a recorded wall. -/
def BoundaryRecorded (w : Walls) : Prop :=
  ∀ i < 16, w (i, 0) 2 = true ∧ w (i, 15) 0 = true ∧
    w (0, i) 3 = true ∧ w (15, i) 1 = true

instance (w : Walls) : Decidable (BoundaryRecorded w) := by
  unfold BoundaryRecorded
  infer_instance

/-- A sensor triple is consistent with the physical boundary at a pose
when it never reports "no wall" across a boundary edge. -/
def senseOK (pos : Cell) (dir : Nat) (f r l : Bool) : Bool :=
  ((nbr pos dir).isSome || f) && ((nbr pos ((dir + 1) % 4)).isSome || r) &&
    ((nbr pos ((dir + 3) % 4)).isSome || l)

/-- Boundary-consistency of all sensor readings of one ff.c tick: the
tick-top (and `justReachedGoal`) sense happens at the tick pose, the
`prepareForSpeedRun`, `recomputePathIfNeeded` and `followShortestPath`
senses happen at the same position facing north. -/
def ffTickOK (i : FFIn) (s : StateFF) : Bool :=
  let sa := if i.wasReset then ffResetApply s else s
  senseOK sa.pos sa.dir i.f i.r i.l && senseOK sa.pos 0 i.f2 i.r2 i.l2 &&
    senseOK sa.pos 0 i.f3 i.r3 i.l3 && senseOK sa.pos 0 i.f4 i.r4 i.l4

/-- Run a list of ticks through ff.c's main loop. -/
def ffRun (l : List FFIn) (s : StateFF) : StateFF :=
  l.foldl (fun st i => ffTick i st) s

/-- Run a list of ticks through ffv3.c's main loop. -/
def v3Run (l : List V3In) (s : StateV3) : StateV3 :=
  l.foldl (fun st i => v3Tick i st) s

/-- Every tick of the run reads boundary-consistent sensors. -/
def ffRunOK : List FFIn → StateFF → Prop
  | [], _ => True
  | i :: rest, s => ffTickOK i s = true ∧ ffRunOK rest (ffTick i s)

/-- The position is in bounds and every recorded path cell is in bounds. -/
def posPathOK (s : StateFF) : Prop :=
  inB s.pos = true ∧ ∀ c ∈ s.path, inB c = true

/-! ### Proof-layer definitions -/

/-- The ff.c reachable-state invariant bundle used for boundary permanence:
boundary walls recorded, wall symmetry, in-bounds position and path cells,
and orientation in range. -/
abbrev FFInv (s : StateFF) : Prop :=
  BoundaryRecorded s.walls ∧ WallSym s.walls ∧ inB s.pos = true ∧
    (∀ c ∈ s.path, inB c = true) ∧ s.dir < 4


/-- Shape of a distance grid: 16 rows of 16 entries. -/
def SG (m : DGrid) : Prop := m.length = 16 ∧ ∀ r ∈ m, r.length = 16

/-- The 256 in-bounds cells as a finite set. -/
def gridF : Finset Cell := Finset.range 16 ×ˢ Finset.range 16

/-- Termination measure of a plain sweep: twice the total distance mass
plus the queue length.  Every loop iteration strictly decreases it. -/
def phi (s : BfsSt) : Nat :=
  2 * Finset.sum gridF (fun c => (dget s.dist c).toNat) + s.q.length

/-- The loop invariant of a plain sweep seeded from `seeds`: well-shaped
distances in `[0, 256]`, seeds at most 0, every below-sentinel value
witnessed by a walk of that length, and every open edge either already
relaxed or with a pending queue entry at its tail. -/
structure SInv (w : Walls) (seeds : List Cell) (s : BfsSt) : Prop where
  shape : SG s.dist
  lb : ∀ c, 0 ≤ dget s.dist c
  ub : ∀ c, dget s.dist c ≤ 256
  src : ∀ c ∈ seeds, dget s.dist c ≤ 0
  sound : ∀ c, dget s.dist c < 256 →
    ReachN w (fun x => x ∈ seeds) (dget s.dist c).toNat c
  stab : ∀ u d v, d < 4 → w u d = false → nbr u d = some v →
    dget s.dist v ≤ dget s.dist u + 1 ∨ u ∈ s.q

/-- Relation between successive sweep states used to compose per-direction
facts: shape kept, distances pointwise nonincreasing, queue only grows, and
any cell whose distance dropped is pending in the queue. -/
def StepOk (s t : BfsSt) : Prop :=
  SG t.dist ∧ (∀ c, dget t.dist c ≤ dget s.dist c) ∧
    (∀ c, c ∈ s.q → c ∈ t.q) ∧ (∀ c, dget t.dist c < dget s.dist c → c ∈ t.q)

/-- The all-zero distance grid, used as an arbitrary pre-state field in
concrete scenarios. -/
def dzero : DGrid := List.replicate 16 (List.replicate 16 0)

/-- Walls that fully enclose the start cell `(0,0)` (the two interior edges
walled from both sides, the boundary edges from initialization). -/
def enclosedStartWalls : Walls := fun c d =>
  boundaryWalls c d || decide (c = ((0, 0) : Cell)) ||
    (decide (c = ((0, 1) : Cell)) && d == 2) || (decide (c = ((1, 0) : Cell)) && d == 3)

/-- Walls that fully enclose the interior cell `(3,3)`. -/
def walls33 : Walls := fun c d =>
  boundaryWalls c d || decide (c = ((3, 3) : Cell)) ||
    (decide (c = ((3, 4) : Cell)) && d == 2) || (decide (c = ((3, 2) : Cell)) && d == 0) ||
    (decide (c = ((2, 3) : Cell)) && d == 1) || (decide (c = ((4, 3) : Cell)) && d == 3)

/-- Walls that fully enclose the interior cell `(5,5)`. -/
def walls55 : Walls := fun c d =>
  boundaryWalls c d || decide (c = ((5, 5) : Cell)) ||
    (decide (c = ((5, 6) : Cell)) && d == 2) || (decide (c = ((5, 4) : Cell)) && d == 0) ||
    (decide (c = ((4, 5) : Cell)) && d == 1) || (decide (c = ((6, 5) : Cell)) && d == 3)

/-- Every cell visited except `(5,5)`. -/
def visAllBut55 : Visited := fun c => !(decide (c = ((5, 5) : Cell)))

/-- A RETURN-mode ffv3 state at an enclosed cell (for claim C8): facing
north at `(3,3)` with every direction walled. -/
def stateC8v3 : StateV3 :=
  { pos := (3, 3), dir := 0, mode := 1, goal_found := true, walls := walls33,
    vis := vset noVisited (3, 3), dist := dzero, path := [] }

/-- The matching ff.c state at the same enclosed cell (for claim C8). -/
def stateC8ff : StateFF :=
  { pos := (3, 3), dir := 0, mode := 1, goalFound := true, explore := false,
    jrg := false, walls := walls33, vis := vset noVisited (3, 3), dist := dzero,
    path := [] }

/-- An ff.c RETURN-mode state back at the start with almost nothing
explored (for claim C2): the computed path crosses unvisited cells. -/
def stateC2ff : StateFF :=
  { pos := (0, 0), dir := 0, mode := 1, goalFound := true, explore := false,
    jrg := false, walls := boundaryWalls, vis := vset noVisited (0, 0),
    dist := dzero, path := [] }

/-- A ffv3 RETURN-mode state back at the start with one cell `(0,3)` left
unvisited (for claim C2): the computed path crosses it. -/
def stateC2v3 : StateV3 :=
  { pos := (0, 0), dir := 0, mode := 1, goal_found := true,
    walls := boundaryWalls, vis := fun c => decide (c ≠ ((0, 3) : Cell)),
    dist := dzero, path := [] }

/-- An ff.c RETURN-mode display state (for claim C10): exploration phase
incomplete, a single unvisited cell `(5,5)` sealed off by walls, and an
arbitrary (all-zero) distance field on entry. -/
def stateC10ff : StateFF :=
  { pos := (0, 0), dir := 0, mode := 1, goalFound := true, explore := false,
    jrg := false, walls := walls55, vis := visAllBut55, dist := dzero, path := [] }

/-- A SPEED-mode ff.c state with everything visited (for claim C10's
witness: both distance-preservation conditions hold). -/
def stateC10all : StateFF :=
  { pos := (0, 0), dir := 0, mode := 2, goalFound := true, explore := true,
    jrg := false, walls := boundaryWalls, vis := fun _ => true, dist := dzero,
    path := [] }

/-- A SEARCH-mode ff.c state used to witness claim C4: at `(1,1)` with only
boundary walls and an arbitrary distance field. -/
def stateC4ff : StateFF :=
  { pos := (1, 1), dir := 0, mode := 0, goalFound := false, explore := false,
    jrg := true, walls := boundaryWalls, vis := vset noVisited (1, 1), dist := dzero,
    path := [] }

/-- The matching SEARCH-mode ffv3 state for claim C4's witness. -/
def stateC4v3 : StateV3 :=
  { pos := (1, 1), dir := 0, mode := 0, goal_found := false, walls := boundaryWalls,
    vis := vset noVisited (1, 1), dist := dzero, path := [] }

/-- The walk witnessing that `(0,0)` is 14 open-edge hops from the goal
region with only boundary walls: west along row 7, then south down
column 0. -/
def gWitness : Nat → Cell := fun i => if i ≤ 7 then (7 - i, 7) else (0, 14 - i)

/-! ### Basic lemmas about the grid and neighbors -/

theorem getD_replicate_elt {α : Type} (a d : α) (n i : Nat) :
    (List.replicate n a).getD i d = if i < n then a else d := by
  by_cases h : i < n
  · rw [List.getD_eq_getElem?_getD, List.getElem?_replicate_of_lt h, Option.getD_some, if_pos h]
  · rw [List.getD_eq_default _ _ (by simpa using Nat.le_of_not_lt h), if_neg h]

theorem dget_dfull (c : Cell) : dget dfull c = 256 := by
  rcases c with ⟨x, y⟩
  show (List.getD (List.replicate 16 (List.replicate 16 256)) x []).getD y 256 = 256
  rw [getD_replicate_elt]
  by_cases hx : x < 16
  · rw [if_pos hx, getD_replicate_elt]
    by_cases hy : y < 16
    · rw [if_pos hy]
    · rw [if_neg hy]
  · rw [if_neg hx]
    rfl

theorem SG_dfull : SG dfull := by
  constructor
  · simp [dfull]
  · intro r hr
    simp only [dfull, List.mem_replicate] at hr
    simp [hr.2]

theorem SG_dset (m : DGrid) (v : Cell) (e : Int) (hm : SG m) : SG (dset m v e) := by
  obtain ⟨h1, h2⟩ := hm
  refine ⟨by simpa [dset] using h1, ?_⟩
  intro r hr
  rcases List.mem_or_eq_of_mem_set hr with h | h
  · exact h2 r h
  subst h
  by_cases hx : v.1 < 16
  · have hlt : v.1 < m.length := by omega
    have hget : m.getD v.1 [] = m[v.1] := List.getD_eq_getElem m [] hlt
    rw [List.length_set, hget]
    exact h2 _ (List.getElem_mem hlt)
  · have hno : dset m v e = m := List.set_eq_of_length_le (by omega)
    rw [hno] at hr
    exact h2 _ hr

theorem dget_dset (m : DGrid) (v : Cell) (e : Int) (c : Cell) (hm : SG m)
    (hv : inB v = true) : dget (dset m v e) c = if c = v then e else dget m c := by
  obtain ⟨h1, h2⟩ := hm
  have hvx : v.1 < 16 := by
    simp only [inB, Bool.and_eq_true, decide_eq_true_eq] at hv
    exact hv.1
  have hvy : v.2 < 16 := by
    simp only [inB, Bool.and_eq_true, decide_eq_true_eq] at hv
    exact hv.2
  have hrowlen : (m.getD v.1 []).length = 16 := by
    rw [List.getD_eq_getElem m [] (by omega)]
    exact h2 _ (List.getElem_mem (by omega))
  by_cases hcx : c.1 = v.1
  · have houter : (dset m v e).getD c.1 [] = (m.getD v.1 []).set v.2 e := by
      rw [List.getD_eq_getElem?_getD, dset, hcx, List.getElem?_set_self (by omega),
        Option.getD_some]
    by_cases hcy : c.2 = v.2
    · have hc : c = v := Prod.ext hcx hcy
      rw [dget, houter, if_pos hc, hcy, List.getD_eq_getElem?_getD,
        List.getElem?_set_self (by omega), Option.getD_some]
    · have hc : ¬(c = v) := fun h => hcy (congrArg Prod.snd h)
      have hne : v.2 ≠ c.2 := fun h => hcy h.symm
      rw [dget, houter, if_neg hc, List.getD_eq_getElem?_getD,
        List.getElem?_set_ne hne, dget, hcx, List.getD_eq_getElem?_getD,
        List.getD_eq_getElem?_getD]
  · have hc : ¬(c = v) := fun h => hcx (congrArg Prod.fst h)
    have hne : v.1 ≠ c.1 := fun h => hcx h.symm
    have houter : (dset m v e).getD c.1 [] = m.getD c.1 [] := by
      rw [List.getD_eq_getElem?_getD, dset, List.getElem?_set_ne hne,
        List.getD_eq_getElem?_getD]
    rw [dget, houter, if_neg hc, dget]

theorem nbr_inB {c v : Cell} {d : Nat} (h : nbr c d = some v) : inB v = true := by
  simp only [nbr] at h
  split at h
  · rename_i hcond
    obtain ⟨h1, h2, h3, h4⟩ := hcond
    cases h
    simp only [inB, Bool.and_eq_true, decide_eq_true_eq]
    omega
  · exact absurd h (by simp)

theorem nbr_ne {c v : Cell} {d : Nat} (hd : d < 4) (h : nbr c d = some v) : v ≠ c := by
  interval_cases d <;>
  · simp only [nbr, dxI, dyI] at h
    split at h
    · rename_i hcond
      obtain ⟨h1, h2, h3, h4⟩ := hcond
      cases h
      intro heq
      have hx := congrArg Prod.fst heq
      have hy := congrArg Prod.snd heq
      simp only at hx hy
      omega
    · exact absurd h (by simp)

/-! ### Sweep engine lemmas -/

theorem mem_gridF {c : Cell} : c ∈ gridF ↔ inB c = true := by
  cases c with
  | mk x y =>
      simp [gridF, Finset.mem_product, inB]

theorem relaxStep_cases (rx : Int → Cell → Int) (w : Walls) (du : Int) (u : Cell)
    (d : Nat) (s : BfsSt) :
    relaxStep rx w du u d s = s ∨
      ∃ v, w u d = false ∧ nbr u d = some v ∧ rx du v < dget s.dist v ∧
        relaxStep rx w du u d s = ⟨dset s.dist v (rx du v), s.q ++ [v], s.cnt + 1⟩ := by
  unfold relaxStep
  by_cases hw : w u d = true
  · left
    rw [if_pos hw]
  · rw [if_neg hw]
    cases hn : nbr u d with
    | none => left; rfl
    | some v =>
        dsimp only
        by_cases hlt : rx du v < dget s.dist v
        · right
          exact ⟨v, by simpa using hw, rfl, hlt, by rw [if_pos hlt]⟩
        · left
          rw [if_neg hlt]

theorem stepOk_rfl (s : BfsSt) (hsg : SG s.dist) : StepOk s s :=
  ⟨hsg, fun _ => le_refl _, fun _ h => h, fun c h => absurd h (lt_irrefl _)⟩

theorem stepOk_trans {s t r : BfsSt} (h1 : StepOk s t) (h2 : StepOk t r) : StepOk s r := by
  obtain ⟨sg1, le1, mem1, dec1⟩ := h1
  obtain ⟨sg2, le2, mem2, dec2⟩ := h2
  refine ⟨sg2, fun c => le_trans (le2 c) (le1 c), fun c h => mem2 c (mem1 c h), ?_⟩
  intro c h
  by_cases h2c : dget r.dist c < dget t.dist c
  · exact dec2 c h2c
  · have : dget r.dist c = dget t.dist c := le_antisymm (le2 c) (le_of_not_lt h2c)
    exact mem2 c (dec1 c (by omega))

theorem relaxStep_stepOk (rx : Int → Cell → Int) (w : Walls) (du : Int) (u : Cell)
    (d : Nat) (s : BfsSt) (hsg : SG s.dist) : StepOk s (relaxStep rx w du u d s) := by
  rcases relaxStep_cases rx w du u d s with h | ⟨v, hw, hn, hlt, h⟩
  · rw [h]
    exact stepOk_rfl s hsg
  · rw [h]
    have hv := nbr_inB hn
    refine ⟨SG_dset _ _ _ hsg, ?_, ?_, ?_⟩
    · intro c
      rw [dget_dset _ _ _ _ hsg hv]
      by_cases hc : c = v
      · rw [if_pos hc, hc]
        exact le_of_lt hlt
      · rw [if_neg hc]
    · intro c h
      simp only [List.mem_append]
      exact Or.inl h
    · intro c h
      rw [dget_dset _ _ _ _ hsg hv] at h
      by_cases hc : c = v
      · simp [hc]
      · rw [if_neg hc] at h
        exact absurd h (lt_irrefl _)

theorem relaxStep_dist_u (rx : Int → Cell → Int) (w : Walls) (du : Int) (u : Cell)
    (d : Nat) (s : BfsSt) (hd : d < 4) (hsg : SG s.dist) :
    dget (relaxStep rx w du u d s).dist u = dget s.dist u := by
  rcases relaxStep_cases rx w du u d s with h | ⟨v, hw, hn, hlt, h⟩
  · rw [h]
  · rw [h]
    show dget (dset s.dist v (rx du v)) u = dget s.dist u
    rw [dget_dset _ _ _ _ hsg (nbr_inB hn), if_neg (fun hc => nbr_ne hd hn hc.symm)]

theorem ReachN_step {w : Walls} {S : Cell → Prop} {n : Nat} {u v : Cell}
    (h : ReachN w S n u) (ha : AdjB w u v) : ReachN w S (n + 1) v := by
  obtain ⟨g, hg0, hstep, hgn⟩ := h
  refine ⟨fun i => if i ≤ n then g i else v, ?_, ?_, ?_⟩
  · simpa using hg0
  · intro i hi
    dsimp only
    by_cases h1 : i + 1 ≤ n
    · rw [if_pos (show i ≤ n by omega), if_pos h1]
      exact hstep i (by omega)
    · have hin : i = n := by omega
      rw [if_pos (show i ≤ n by omega), if_neg h1, hin, hgn]
      exact ha
  · dsimp only
    rw [if_neg (by omega)]

theorem relaxStep_keep (w : Walls) (seeds : List Cell) (du : Int) (u : Cell)
    (d : Nat) (s : BfsSt) (hd : d < 4) (hsg : SG s.dist)
    (hlb : ∀ c, 0 ≤ dget s.dist c) (hub : ∀ c, dget s.dist c ≤ 256)
    (hsound : ∀ c, dget s.dist c < 256 →
      ReachN w (fun x => x ∈ seeds) (dget s.dist c).toNat c)
    (hdu0 : 0 ≤ du)
    (hduR : du < 256 → ReachN w (fun x => x ∈ seeds) du.toNat u) :
    (∀ c, 0 ≤ dget (relaxStep rxPlain w du u d s).dist c) ∧
      (∀ c, dget (relaxStep rxPlain w du u d s).dist c ≤ 256) ∧
      (∀ c, dget (relaxStep rxPlain w du u d s).dist c < 256 →
        ReachN w (fun x => x ∈ seeds) (dget (relaxStep rxPlain w du u d s).dist c).toNat c) := by
  rcases relaxStep_cases rxPlain w du u d s with h | ⟨v, hw, hn, hlt, h⟩
  · rw [h]
    exact ⟨hlb, hub, hsound⟩
  · rw [h]
    have hv := nbr_inB hn
    have he : rxPlain du v = du + 1 := rfl
    have hub' : dget s.dist v ≤ 256 := hub v
    have hdu255 : du < 256 := by
      rw [he] at hlt
      omega
    refine ⟨?_, ?_, ?_⟩
    · intro c
      show 0 ≤ dget (dset s.dist v (rxPlain du v)) c
      rw [dget_dset _ _ _ _ hsg hv]
      by_cases hc : c = v
      · rw [if_pos hc, he]
        omega
      · rw [if_neg hc]
        exact hlb c
    · intro c
      show dget (dset s.dist v (rxPlain du v)) c ≤ 256
      rw [dget_dset _ _ _ _ hsg hv]
      by_cases hc : c = v
      · rw [if_pos hc, he]
        omega
      · rw [if_neg hc]
        exact hub c
    · intro c hlt'
      have hrw : dget (dset s.dist v (rxPlain du v)) c = if c = v then du + 1 else dget s.dist c := by
        rw [dget_dset _ _ _ _ hsg hv, he]
      show ReachN w (fun x => x ∈ seeds) (dget (dset s.dist v (rxPlain du v)) c).toNat c
      rw [hrw]
      rw [hrw] at hlt'
      by_cases hc : c = v
      · rw [if_pos hc]
        have htn : (du + 1).toNat = du.toNat + 1 := by omega
        rw [htn]
        have hreach := hduR hdu255
        have hadj : AdjB w u v := ⟨d, hd, by simpa using hw, hn⟩
        rw [hc]
        exact ReachN_step hreach hadj
      · rw [if_neg hc]
        rw [if_neg hc] at hlt'
        exact hsound c hlt'

theorem relaxStep_edge (w : Walls) (du : Int) (u : Cell) (d : Nat) (s : BfsSt)
    (hsg : SG s.dist) (hw : w u d = false) {v : Cell} (hn : nbr u d = some v) :
    dget (relaxStep rxPlain w du u d s).dist v ≤ du + 1 := by
  rcases relaxStep_cases rxPlain w du u d s with h | ⟨v', hw', hn', hlt, h⟩
  · rw [h]
    unfold relaxStep at h
    rw [if_neg (by simp [hw]), hn] at h
    by_cases hlt : rxPlain du v < dget s.dist v
    · exfalso
      have := congrArg BfsSt.cnt h
      simp only at this
      rw [if_pos hlt] at this
      simp at this
    · have : dget s.dist v ≤ rxPlain du v := le_of_not_lt hlt
      exact this
  · have hvv : v' = v := by
      rw [hn] at hn'
      exact (Option.some.inj hn').symm
    subst hvv
    rw [h]
    show dget (dset s.dist v' (rxPlain du v')) v' ≤ du + 1
    rw [dget_dset _ _ _ _ hsg (nbr_inB hn), if_pos rfl]
    exact le_refl _

theorem relaxAll_SInv (w : Walls) (seeds : List Cell) (s : BfsSt) (u : Cell)
    (rest : List Cell) (hinv : SInv w seeds s) (hq : s.q = u :: rest) :
    SInv w seeds (relaxAll rxPlain w (dget s.dist u) u ⟨s.dist, rest, s.cnt⟩) := by
  obtain ⟨hsg, hlb, hub, hsrc, hsound, hstab⟩ := hinv
  unfold relaxAll
  set du := dget s.dist u with hdu
  set s0 : BfsSt := ⟨s.dist, rest, s.cnt⟩ with hs0
  have hs0d : s0.dist = s.dist := rfl
  set s1 := relaxStep rxPlain w du u 0 s0 with hs1
  set s2 := relaxStep rxPlain w du u 1 s1 with hs2
  set s3 := relaxStep rxPlain w du u 2 s2 with hs3
  set s4 := relaxStep rxPlain w du u 3 s3 with hs4
  have hdu0 : 0 ≤ du := hlb u
  -- step 1
  have hsg0 : SG s0.dist := hsg
  have hok1 : StepOk s0 s1 := relaxStep_stepOk _ _ _ _ _ _ hsg0
  have hsg1 : SG s1.dist := hok1.1
  have hu1 : dget s1.dist u = du := by
    rw [hs1, relaxStep_dist_u _ _ _ _ _ _ (by omega) hsg0, hs0d]
  have hk1 := relaxStep_keep w seeds du u 0 s0 (by omega) hsg0
    (by rw [hs0d]; exact hlb) (by rw [hs0d]; exact hub)
    (by rw [hs0d]; exact hsound) hdu0
    (by rw [hdu]; exact hsound u)
  -- step 2
  have hok2 : StepOk s1 s2 := relaxStep_stepOk _ _ _ _ _ _ hsg1
  have hsg2 : SG s2.dist := hok2.1
  have hu2 : dget s2.dist u = du := by
    rw [hs2, relaxStep_dist_u _ _ _ _ _ _ (by omega) hsg1, hu1]
  have hk2 := relaxStep_keep w seeds du u 1 s1 (by omega) hsg1
    hk1.1 hk1.2.1 hk1.2.2 hdu0 (fun h => hu1 ▸ hk1.2.2 u (by rw [hu1]; exact h))
  -- step 3
  have hok3 : StepOk s2 s3 := relaxStep_stepOk _ _ _ _ _ _ hsg2
  have hsg3 : SG s3.dist := hok3.1
  have hu3 : dget s3.dist u = du := by
    rw [hs3, relaxStep_dist_u _ _ _ _ _ _ (by omega) hsg2, hu2]
  have hk3 := relaxStep_keep w seeds du u 2 s2 (by omega) hsg2
    hk2.1 hk2.2.1 hk2.2.2 hdu0 (fun h => hu2 ▸ hk2.2.2 u (by rw [hu2]; exact h))
  -- step 4
  have hok4 : StepOk s3 s4 := relaxStep_stepOk _ _ _ _ _ _ hsg3
  have hsg4 : SG s4.dist := hok4.1
  have hu4 : dget s4.dist u = du := by
    rw [hs4, relaxStep_dist_u _ _ _ _ _ _ (by omega) hsg3, hu3]
  have hk4 := relaxStep_keep w seeds du u 3 s3 (by omega) hsg3
    hk3.1 hk3.2.1 hk3.2.2 hdu0 (fun h => hu3 ▸ hk3.2.2 u (by rw [hu3]; exact h))
  have hok02 : StepOk s0 s2 := stepOk_trans hok1 hok2
  have hok03 : StepOk s0 s3 := stepOk_trans hok02 hok3
  have hok04 : StepOk s0 s4 := stepOk_trans hok03 hok4
  have hok14 : StepOk s1 s4 := stepOk_trans hok2 (stepOk_trans hok3 hok4)
  have hok24 : StepOk s2 s4 := stepOk_trans hok3 hok4
  refine ⟨hsg4, hk4.1, hk4.2.1, ?_, hk4.2.2, ?_⟩
  · intro c hc
    exact le_trans (hs0d ▸ hok04.2.1 c) (hsrc c hc)
  · intro x d v hd hw hn
    by_cases hxu : x = u
    · subst hxu
      left
      rw [hu4]
      interval_cases d
      · have hedge : dget s1.dist v ≤ du + 1 := by
          rw [hs1]
          exact relaxStep_edge w du x 0 s0 hsg0 hw hn
        exact le_trans (hok14.2.1 v) hedge
      · have hedge : dget s2.dist v ≤ du + 1 := by
          rw [hs2]
          exact relaxStep_edge w du x 1 s1 hsg1 hw hn
        exact le_trans (hok24.2.1 v) hedge
      · have hedge : dget s3.dist v ≤ du + 1 := by
          rw [hs3]
          exact relaxStep_edge w du x 2 s2 hsg2 hw hn
        exact le_trans (hok4.2.1 v) hedge
      · rw [hs4]
        exact relaxStep_edge w du x 3 s3 hsg3 hw hn
    · rcases hstab x d v hd hw hn with hb | hm
      · by_cases hdec : dget s4.dist x < dget s0.dist x
        · right
          exact hok04.2.2.2 x hdec
        · have heq : dget s4.dist x = dget s0.dist x :=
            le_antisymm (hok04.2.1 x) (le_of_not_lt hdec)
          left
          calc dget s4.dist v ≤ dget s0.dist v := hok04.2.1 v
            _ ≤ dget s0.dist x + 1 := by rw [hs0d]; exact hb
            _ = dget s4.dist x + 1 := by rw [heq]
      · rw [hq] at hm
        rcases List.mem_cons.mp hm with h | h
        · exact absurd h hxu
        · right
          exact hok04.2.2.1 x h

theorem sweep_SInv (w : Walls) (seeds : List Cell) (fuel : Nat) (s : BfsSt)
    (hinv : SInv w seeds s) : SInv w seeds (sweep rxPlain w fuel s) := by
  induction fuel generalizing s with
  | zero => exact hinv
  | succ n ih =>
      unfold sweep
      cases hq : s.q with
      | nil => exact hinv
      | cons u rest => exact ih _ (relaxAll_SInv w seeds s u rest hinv hq)

theorem relaxStep_phi (w : Walls) (du : Int) (u : Cell) (d : Nat) (s : BfsSt)
    (hsg : SG s.dist) (hdu0 : 0 ≤ du) :
    phi (relaxStep rxPlain w du u d s) ≤ phi s := by
  rcases relaxStep_cases rxPlain w du u d s with h | ⟨v, hw, hn, hlt, h⟩
  · rw [h]
  · rw [h]
    have hv := nbr_inB hn
    have hvF : v ∈ gridF := mem_gridF.mpr hv
    have he : rxPlain du v = du + 1 := rfl
    unfold phi
    have hpoint : ∀ c ∈ gridF,
        (dget (dset s.dist v (rxPlain du v)) c).toNat =
          (if c = v then (du + 1).toNat else (dget s.dist c).toNat) := by
      intro c _
      rw [dget_dset _ _ _ _ hsg hv, he]
      by_cases hc : c = v
      · rw [if_pos hc, if_pos hc]
      · rw [if_neg hc, if_neg hc]
    rw [Finset.sum_congr rfl hpoint]
    rw [← Finset.add_sum_erase _ _ hvF, ← Finset.add_sum_erase _ (fun c => (dget s.dist c).toNat) hvF]
    have hrest : Finset.sum (gridF.erase v)
        (fun c => if c = v then (du + 1).toNat else (dget s.dist c).toNat) =
        Finset.sum (gridF.erase v) (fun c => (dget s.dist c).toNat) := by
      refine Finset.sum_congr rfl ?_
      intro c hc
      rw [if_neg (Finset.ne_of_mem_erase hc)]
    rw [hrest, if_pos rfl]
    simp only [List.length_append, List.length_cons, List.length_nil]
    have hdrop : (du + 1).toNat + 1 ≤ (dget s.dist v).toNat := by
      rw [he] at hlt
      omega
    omega

theorem relaxAll_phi (w : Walls) (s : BfsSt) (u : Cell) (rest : List Cell)
    (hsg : SG s.dist) (hlb : ∀ c, 0 ≤ dget s.dist c) (hq : s.q = u :: rest) :
    phi (relaxAll rxPlain w (dget s.dist u) u ⟨s.dist, rest, s.cnt⟩) < phi s := by
  unfold relaxAll
  set du := dget s.dist u with hdu
  set s0 : BfsSt := ⟨s.dist, rest, s.cnt⟩ with hs0
  have hdu0 : 0 ≤ du := hlb u
  have hsg0 : SG s0.dist := hsg
  have hsg1 : SG (relaxStep rxPlain w du u 0 s0).dist := (relaxStep_stepOk _ _ _ _ _ _ hsg0).1
  have hsg2 : SG (relaxStep rxPlain w du u 1 (relaxStep rxPlain w du u 0 s0)).dist :=
    (relaxStep_stepOk _ _ _ _ _ _ hsg1).1
  have hsg3 : SG (relaxStep rxPlain w du u 2
      (relaxStep rxPlain w du u 1 (relaxStep rxPlain w du u 0 s0))).dist :=
    (relaxStep_stepOk _ _ _ _ _ _ hsg2).1
  have h1 := relaxStep_phi w du u 0 s0 hsg0 hdu0
  have h2 := relaxStep_phi w du u 1 _ hsg1 hdu0
  have h3 := relaxStep_phi w du u 2 _ hsg2 hdu0
  have h4 := relaxStep_phi w du u 3 _ hsg3 hdu0
  have hs0phi : phi s0 + 1 = phi s := by
    unfold phi
    rw [hq]
    simp only [List.length_cons]
    omega
  omega

theorem sweep_drains (w : Walls) (seeds : List Cell) (fuel : Nat) (s : BfsSt)
    (hinv : SInv w seeds s) (hfuel : phi s ≤ fuel) :
    (sweep rxPlain w fuel s).q = [] := by
  induction fuel generalizing s with
  | zero =>
      have : s.q.length = 0 := by
        unfold phi at hfuel
        omega
      unfold sweep
      exact List.length_eq_zero.mp this
  | succ n ih =>
      unfold sweep
      cases hq : s.q with
      | nil => exact hq
      | cons u rest =>
          refine ih _ (relaxAll_SInv w seeds s u rest hinv hq) ?_
          have := relaxAll_phi w s u rest hinv.shape hinv.lb hq
          omega

theorem initSt_dist (seeds : List Cell) (hs : ∀ c ∈ seeds, inB c = true) (c : Cell) :
    dget (initSt seeds).dist c = if c ∈ seeds then 0 else 256 := by
  show dget (seeds.foldl (fun m x => dset m x 0) dfull) c = _
  have main : ∀ (l : List Cell) (m : DGrid), SG m → (∀ x ∈ l, inB x = true) →
      dget (l.foldl (fun m x => dset m x 0) m) c = if c ∈ l then 0 else dget m c := by
    intro l
    induction l with
    | nil => intro m _ _; simp
    | cons a tl ih =>
        intro m hm hmem
        rw [List.foldl_cons]
        rw [ih (dset m a 0) (SG_dset m a 0 hm) (fun x hx => hmem x (List.mem_cons_of_mem a hx))]
        rw [dget_dset m a 0 c hm (hmem a (List.mem_cons_self a tl))]
        by_cases hc1 : c ∈ tl
        · rw [if_pos hc1, if_pos (List.mem_cons_of_mem a hc1)]
        · rw [if_neg hc1]
          by_cases hc2 : c = a
          · rw [if_pos hc2, if_pos (by rw [hc2]; exact List.mem_cons_self a tl)]
          · rw [if_neg hc2, if_neg (by simp [hc1, hc2])]
  rw [main seeds dfull SG_dfull hs, dget_dfull]

theorem initSt_SG (seeds : List Cell) : SG (initSt seeds).dist := by
  show SG (seeds.foldl (fun m x => dset m x 0) dfull)
  have main : ∀ (l : List Cell) (m : DGrid), SG m →
      SG (l.foldl (fun m x => dset m x 0) m) := by
    intro l
    induction l with
    | nil => intro m hm; exact hm
    | cons a tl ih => intro m hm; exact ih (dset m a 0) (SG_dset m a 0 hm)
  exact main seeds dfull SG_dfull

theorem initSt_SInv (w : Walls) (seeds : List Cell) (hs : ∀ c ∈ seeds, inB c = true) :
    SInv w seeds (initSt seeds) := by
  have hd := initSt_dist seeds hs
  refine ⟨initSt_SG seeds, ?_, ?_, ?_, ?_, ?_⟩
  · intro c
    rw [hd c]
    by_cases hc : c ∈ seeds <;> simp [hc]
  · intro c
    rw [hd c]
    by_cases hc : c ∈ seeds <;> simp [hc]
  · intro c hc
    rw [hd c, if_pos hc]
  · intro c hc
    by_cases hm : c ∈ seeds
    · have hz : dget (initSt seeds).dist c = 0 := by rw [hd c, if_pos hm]
      rw [hz]
      exact ⟨fun _ => c, hm, fun i hi => absurd hi (by omega), rfl⟩
    · exfalso
      rw [hd c, if_neg hm] at hc
      omega
  · intro u d v hd4 hw hn
    by_cases hm : u ∈ seeds
    · right
      exact hm
    · left
      rw [hd u, if_neg hm, hd v]
      by_cases hv : v ∈ seeds <;> simp [hv] <;> omega

theorem phi_initSt (seeds : List Cell) (hs : ∀ c ∈ seeds, inB c = true) :
    phi (initSt seeds) ≤ 131072 + seeds.length := by
  unfold phi
  have hsum : Finset.sum gridF (fun c => (dget (initSt seeds).dist c).toNat) ≤ 65536 := by
    have hcard : gridF.card = 256 := by
      simp [gridF]
    have := Finset.sum_le_card_nsmul gridF (fun c => (dget (initSt seeds).dist c).toNat) 256
      (by
        intro c _
        dsimp only
        rw [initSt_dist seeds hs c]
        by_cases hc : c ∈ seeds <;> simp [hc])
    rw [hcard] at this
    simpa using this
  have hlen : (initSt seeds).q.length = seeds.length := rfl
  omega

theorem walk_inB {w : Walls} {S : Cell → Prop} (hS : ∀ c, S c → inB c = true)
    {g : Nat → Cell} {n : Nat} (hg0 : S (g 0))
    (hstep : ∀ i, i < n → AdjB w (g i) (g (i + 1))) :
    ∀ i, i ≤ n → inB (g i) = true := by
  intro i
  induction i with
  | zero => intro _; exact hS _ hg0
  | succ k ih =>
      intro hk
      obtain ⟨d, _, _, hn⟩ := hstep k (by omega)
      exact nbr_inB hn

theorem reach_chain {w : Walls} {seeds : List Cell} {F : DGrid}
    (hclosed : ∀ u d v, d < 4 → w u d = false → nbr u d = some v →
      dget F v ≤ dget F u + 1)
    (hsrc : ∀ c ∈ seeds, dget F c ≤ 0) :
    ∀ n c, ReachN w (fun x => x ∈ seeds) n c → dget F c ≤ (n : Int) := by
  intro n c ⟨g, hg0, hstep, hgn⟩
  have main : ∀ i, i ≤ n → dget F (g i) ≤ (i : Int) := by
    intro i
    induction i with
    | zero => intro _; exact hsrc _ hg0
    | succ k ih =>
        intro hk
        obtain ⟨d, hd4, hw, hn⟩ := hstep k (by omega)
        have h1 := hclosed _ d _ hd4 hw hn
        have h2 := ih (by omega)
        push_cast
        push_cast at h2
        omega
  have := main n (le_refl n)
  rw [hgn] at this
  exact this

theorem reach_shorten {w : Walls} {S : Cell → Prop} (hS : ∀ c, S c → inB c = true) :
    ∀ n c, ReachN w S n c → ∃ m, m ≤ 255 ∧ ReachN w S m c := by
  intro n
  induction n using Nat.strong_induction_on with
  | _ n ih =>
      intro c h
      by_cases h255 : n ≤ 255
      · exact ⟨n, h255, h⟩
      · obtain ⟨g, hg0, hstep, hgn⟩ := h
        have hin : ∀ i, i ≤ n → inB (g i) = true := walk_inB hS hg0 hstep
        have hpig : ∃ a ∈ Finset.range 257, ∃ b ∈ Finset.range 257, a ≠ b ∧ g a = g b := by
          refine Finset.exists_ne_map_eq_of_card_lt_of_maps_to (t := gridF) ?_ ?_
          · have h1 : (Finset.range 257).card = 257 := Finset.card_range 257
            have h2 : gridF.card = 256 := by simp [gridF]
            omega
          · intro a ha
            rw [Finset.mem_range] at ha
            exact mem_gridF.mpr (hin a (by omega))
        obtain ⟨a, ha, b, hb, hab, heq⟩ := hpig
        rw [Finset.mem_range] at ha hb
        -- normalize to a < b
        obtain ⟨i, j, hij, hj, hgij⟩ : ∃ i j, i < j ∧ j ≤ 256 ∧ g i = g j := by
          rcases Nat.lt_or_ge a b with h | h
          · exact ⟨a, b, h, by omega, heq⟩
          · exact ⟨b, a, by omega, by omega, heq.symm⟩
        set k := j - i with hk
        have hk1 : 1 ≤ k := by omega
        set g' : Nat → Cell := fun t => if t ≤ i then g t else g (t + k) with hg'
        have hreach' : ReachN w S (n - k) c := by
          refine ⟨g', ?_, ?_, ?_⟩
          · show S (g' 0)
            rw [hg']
            dsimp only
            rw [if_pos (by omega)]
            exact hg0
          · intro t ht
            rw [hg']
            dsimp only
            by_cases h1 : t + 1 ≤ i
            · rw [if_pos (by omega), if_pos h1]
              exact hstep t (by omega)
            · by_cases h2 : t ≤ i
              · have hti : t = i := by omega
                rw [if_pos h2, if_neg h1, hti, hgij]
                have : j = i + 1 + k - 1 := by omega
                have harr : i + 1 + k = j + 1 := by omega
                rw [harr]
                exact hstep j (by omega)
              · rw [if_neg h2, if_neg (by omega)]
                have harr : t + 1 + k = t + k + 1 := by omega
                rw [harr]
                exact hstep (t + k) (by omega)
          · rw [hg']
            dsimp only
            by_cases hfin : n - k ≤ i
            · have hji : j = n := by omega
              have hni : n - k = i := by omega
              rw [if_pos hfin, hni, hgij, hji, hgn]
            · rw [if_neg hfin]
              have harr : n - k + k = n := by omega
              rw [harr, hgn]
        exact ih (n - k) (by omega) c hreach'

theorem sweep_correct (w : Walls) (seeds : List Cell)
    (hs : ∀ c ∈ seeds, inB c = true) (hlen : seeds.length ≤ 256) :
    (∀ c ∈ seeds, dget (sweep rxPlain w sweepFuel (initSt seeds)).dist c = 0) ∧
      (∀ c, Reachable w (fun x => x ∈ seeds) c →
        ReachN w (fun x => x ∈ seeds)
          (dget (sweep rxPlain w sweepFuel (initSt seeds)).dist c).toNat c ∧
        (∀ n, ReachN w (fun x => x ∈ seeds) n c →
          dget (sweep rxPlain w sweepFuel (initSt seeds)).dist c ≤ (n : Int))) ∧
      (∀ c, ¬ Reachable w (fun x => x ∈ seeds) c →
        dget (sweep rxPlain w sweepFuel (initSt seeds)).dist c = 256) := by
  have hinv0 := initSt_SInv w seeds hs
  have hfin := sweep_SInv w seeds sweepFuel _ hinv0
  have hdrain : (sweep rxPlain w sweepFuel (initSt seeds)).q = [] := by
    refine sweep_drains w seeds sweepFuel _ hinv0 ?_
    have := phi_initSt seeds hs
    unfold sweepFuel
    omega
  obtain ⟨hsg, hlb, hub, hsrc, hsound, hstab⟩ := hfin
  have hclosed : ∀ u d v, d < 4 → w u d = false → nbr u d = some v →
      dget (sweep rxPlain w sweepFuel (initSt seeds)).dist v ≤
        dget (sweep rxPlain w sweepFuel (initSt seeds)).dist u + 1 := by
    intro u d v hd hw hn
    rcases hstab u d v hd hw hn with h | h
    · exact h
    · rw [hdrain] at h
      exact absurd h (List.not_mem_nil u)
  have hchain := reach_chain hclosed hsrc
  have hSin : ∀ c, (fun x => x ∈ seeds) c → inB c = true := hs
  refine ⟨?_, ?_, ?_⟩
  · intro c hc
    have h1 := hsrc c hc
    have h2 := hlb c
    omega
  · intro c ⟨n, hreach⟩
    obtain ⟨m, hm255, hmre⟩ := reach_shorten hSin n c hreach
    have hle := hchain m c hmre
    have hlt : dget (sweep rxPlain w sweepFuel (initSt seeds)).dist c < 256 := by omega
    exact ⟨hsound c hlt, fun k hk => hchain k c hk⟩
  · intro c hnc
    by_cases hlt : dget (sweep rxPlain w sweepFuel (initSt seeds)).dist c < 256
    · exact absurd ⟨_, hsound c hlt⟩ hnc
    · have := hub c
      omega

theorem mem_goalList_iff (c : Cell) : c ∈ goalList ↔ isGoal c = true := by
  cases c with
  | mk x y =>
      simp only [goalList, isGoal, List.mem_cons, List.not_mem_nil, or_false,
        Prod.mk.injEq, Bool.and_eq_true, Bool.or_eq_true, beq_iff_eq]
      omega

theorem chooseGoalTarget_inB (pos : Cell) : inB (chooseGoalTarget pos) = true := by
  unfold chooseGoalTarget
  dsimp only
  split <;> rfl

/-- C1: after any flood fill toward the goal region, the distance field is
exact.  For ffv3.c's `flood_fill_goal` the claim holds as stated: all four
goal cells are sources at distance 0, every reachable cell holds the true
minimum open-edge hop count to the goal region (the value is attained by a
walk and is a lower bound of all walks), and unreachable cells hold the
sentinel 256.  For ff.c's `floodFillToGoal` the same exactness holds, but
relative to the single chosen goal cell (the Manhattan-nearest to the
current position), which alone is seeded at distance 0. -/
theorem C1_goal_flood_correct (w : Walls) (pos : Cell) :
    (∀ c, isGoal c = true → dget (flood_fill_goal w) c = 0) ∧
      (∀ c, Reachable w (fun x => x ∈ goalList) c →
        ReachN w (fun x => x ∈ goalList) (dget (flood_fill_goal w) c).toNat c ∧
          ∀ n, ReachN w (fun x => x ∈ goalList) n c →
            dget (flood_fill_goal w) c ≤ (n : Int)) ∧
      (∀ c, ¬ Reachable w (fun x => x ∈ goalList) c →
        dget (flood_fill_goal w) c = 256) ∧
      (dget (floodFillToGoal w pos) (chooseGoalTarget pos) = 0) ∧
      (∀ c, Reachable w (fun x => x ∈ [chooseGoalTarget pos]) c →
        ReachN w (fun x => x ∈ [chooseGoalTarget pos])
            (dget (floodFillToGoal w pos) c).toNat c ∧
          ∀ n, ReachN w (fun x => x ∈ [chooseGoalTarget pos]) n c →
            dget (floodFillToGoal w pos) c ≤ (n : Int)) ∧
      (∀ c, ¬ Reachable w (fun x => x ∈ [chooseGoalTarget pos]) c →
        dget (floodFillToGoal w pos) c = 256) := by
  have h1 := sweep_correct w goalList (by decide) (by decide)
  have h2 := sweep_correct w [chooseGoalTarget pos]
    (by
      intro c hc
      rw [List.mem_singleton.mp hc]
      exact chooseGoalTarget_inB pos)
    (by simp)
  refine ⟨?_, h1.2.1, h1.2.2, ?_, h2.2.1, h2.2.2⟩
  · intro c hc
    exact h1.1 c ((mem_goalList_iff c).mpr hc)
  · exact h2.1 _ (List.mem_singleton_self _)

set_option maxRecDepth 2000000 in
set_option maxHeartbeats 4000000 in
/-- C1 counterexample: with only boundary walls and the mouse at `(0,0)`,
ff.c's `floodFillToGoal` leaves goal cell `(8,8)` at distance 2, not 0 —
only the chosen goal cell `(7,7)` is a source, so not all four goal-region
cells get distance 0. -/
theorem C1_counterexample :
    isGoal ((8, 8) : Cell) = true ∧
      dget (floodFillToGoal boundaryWalls (0, 0)) (8, 8) = 2 ∧ (2 : Int) ≠ 0 := by
  refine ⟨rfl, ?_, by decide⟩
  decide

/-- C1 witness: with boundary walls, `(0,0)` is reachable from the goal
region (14 hops west then south), and the theorem then gives that
`flood_fill_goal`'s value at `(0,0)` is attained by a walk. -/
theorem C1_goal_flood_correct_witness :
    Reachable boundaryWalls (fun x => x ∈ goalList) ((0, 0) : Cell) ∧
      ReachN boundaryWalls (fun x => x ∈ goalList)
        (dget (flood_fill_goal boundaryWalls) (0, 0)).toNat (0, 0) := by
  have hreach : Reachable boundaryWalls (fun x => x ∈ goalList) ((0, 0) : Cell) :=
    ⟨14, gWitness, by decide, by decide, by decide⟩
  exact ⟨hreach, ((C1_goal_flood_correct boundaryWalls (0, 0)).2.1 (0, 0) hreach).1⟩

set_option maxRecDepth 2000000 in
set_option maxHeartbeats 8000000 in
/-- C9: Scenario A — on the 16×16 grid with only boundary walls, goal
region at the four center cells and start `(0,0)`, both ff.c's
`computeShortestPath` and ffv3.c's `compute_shortest_path` return a path of
15 cells, i.e. 14 moves, which equals the minimum Manhattan distance from
the start to the nearest goal cell. -/
theorem C9_scenarioA :
    (computeShortestPathFF boundaryWalls (0, 0)).length = 15 ∧
      (compute_shortest_path boundaryWalls).length = 15 ∧
      minGoalDist ((0, 0) : Cell) = 14 := by
  refine ⟨by decide, by decide, by decide⟩

set_option maxRecDepth 2000000 in
set_option maxHeartbeats 8000000 in
/-- C7: the exploration-biased sweep of ff.c's
`floodFillToStartWithExploration` overflows its 256-entry queue array.
With only boundary walls and only `(0,0)` visited, after 300 loop
iterations the enqueue counter (seeds included) exceeds 256 while the queue
is still non-empty — the unvisited-cell bonuses make the relaxation value
drop along cycles, so cells re-improve and re-enqueue without bound.  The
plain sweep on the same configuration performs exactly 256 enqueue
operations, filling the array to capacity but not past it. -/
theorem C7_exploration_queue_overflow :
    256 < (sweep (rxExpl (vset noVisited (0, 0))) boundaryWalls 300
        (initSt [(0, 0)])).cnt ∧
      (sweep (rxExpl (vset noVisited (0, 0))) boundaryWalls 300
        (initSt [(0, 0)])).q ≠ [] ∧
      (sweep rxPlain boundaryWalls sweepFuel (initSt [(0, 0)])).cnt = 256 := by
  refine ⟨by decide, by decide, by decide⟩

/-! ### Wall-write lemmas -/

theorem wset_self (w : Walls) (a : Cell) (d : Nat) (b : Bool) : wset w a d b a d = b := by
  unfold wset
  rw [if_pos ⟨rfl, rfl⟩]

theorem wset_ne (w : Walls) (a : Cell) (d : Nat) (b : Bool) (c : Cell) (dd : Nat)
    (h : ¬(c = a ∧ dd = d)) : wset w a d b c dd = w c dd := by
  unfold wset
  rw [if_neg h]

theorem pairSet_self (w : Walls) (a : Cell) (d : Nat) (b : Bool) (hd : d < 4) :
    pairSet w a d b a d = b := by
  unfold pairSet
  cases hn : nbr a d with
  | none => exact wset_self w a d b
  | some n =>
      have hne : n ≠ a := nbr_ne hd hn
      dsimp only
      rw [wset_ne _ _ _ _ _ _ (fun hh => hne (hh.1.symm))]
      exact wset_self w a d b

theorem pairSet_mirror (w : Walls) (a : Cell) (d : Nat) (b : Bool) {n : Cell}
    (hn : nbr a d = some n) : pairSet w a d b n (opp d) = b := by
  unfold pairSet
  rw [hn]
  dsimp only
  exact wset_self _ n (opp d) b

theorem set_wall_self (w : Walls) (p : Cell) (d : Nat) (hp : inB p = true) (hd : d < 4) :
    set_wall w p d p d = true := by
  unfold set_wall
  rw [if_pos hp]
  exact pairSet_self w p d true hd

theorem set_wall_mirror (w : Walls) (p : Cell) (d : Nat) {n : Cell}
    (hp : inB p = true) (hn : nbr p d = some n) : set_wall w p d n (opp d) = true := by
  unfold set_wall
  rw [if_pos hp]
  exact pairSet_mirror w p d true hn

/-! ### Direction-scan lemmas -/

theorem chooseStepFF_snd (w : Walls) (vis : Visited) (D : DGrid) (mode : Nat)
    (pos : Cell) (acc : Int × Option Nat) (d : Nat) :
    (chooseStepFF w vis D mode pos acc d).2 = acc.2 ∨
      (chooseStepFF w vis D mode pos acc d).2 = some d := by
  unfold chooseStepFF
  by_cases hw : w pos d = true
  · left
    rw [if_pos hw]
  · rw [if_neg hw]
    cases hn : nbr pos d with
    | none => left; rfl
    | some n =>
        dsimp only
        by_cases hlt : dget D n - bonusFF mode w vis pos d < acc.1
        · right
          rw [if_pos hlt]
        · left
          rw [if_neg hlt]

theorem chooseDirScan_lt4 {w : Walls} {vis : Visited} {D : DGrid} {mode : Nat}
    {pos : Cell} {d : Nat} (h : chooseDirScan w vis D mode pos = some d) : d < 4 := by
  unfold chooseDirScan at h
  rcases chooseStepFF_snd w vis D mode pos _ 3 with h4 | h4 <;> rw [h4] at h
  · rcases chooseStepFF_snd w vis D mode pos _ 2 with h3 | h3 <;> rw [h3] at h
    · rcases chooseStepFF_snd w vis D mode pos _ 1 with h2 | h2 <;> rw [h2] at h
      · rcases chooseStepFF_snd w vis D mode pos _ 0 with h1 | h1 <;> rw [h1] at h
        · exact absurd h (by simp)
        · cases Option.some.inj h; omega
      · cases Option.some.inj h; omega
    · cases Option.some.inj h; omega
  · cases Option.some.inj h; omega

theorem chooseStepV3_snd (s : StateV3) (acc : Int × Option Nat) (d : Nat) :
    (chooseStepV3 s acc d).2 = acc.2 ∨ (chooseStepV3 s acc d).2 = some d := by
  unfold chooseStepV3
  by_cases hw : has_wall s.walls s.pos d = true
  · left
    rw [if_pos hw]
  · rw [if_neg hw]
    cases hn : nbr s.pos d with
    | none => left; rfl
    | some n =>
        dsimp only
        by_cases hlt : (if s.mode = 0 ∧ s.vis n = false then dget s.dist n - 1
            else dget s.dist n) < acc.1
        · right
          rw [if_pos hlt]
        · left
          rw [if_neg hlt]

theorem opp_lt4 (d : Nat) : opp d < 4 := Nat.mod_lt _ (by omega)

theorem choose_next_direction_lt4 (s : StateV3) : choose_next_direction s < 4 := by
  unfold choose_next_direction
  rcases chooseStepV3_snd s _ 3 with h4 | h4 <;> rw [h4]
  · rcases chooseStepV3_snd s _ 2 with h3 | h3 <;> rw [h3]
    · rcases chooseStepV3_snd s _ 1 with h2 | h2 <;> rw [h2]
      · rcases chooseStepV3_snd s _ 0 with h1 | h1 <;> rw [h1]
        · exact opp_lt4 s.dir
        · dsimp only
          omega
      · dsimp only
        omega
    · dsimp only
      omega
  · dsimp only
    omega

theorem turnActs_orient (cur target : Nat) (hc : cur < 4) (ht : target < 4) :
    (turnActs cur target).foldl applyTurn cur = target := by
  interval_cases cur <;> interval_cases target <;> decide

theorem chooseStepFF_blocked {w : Walls} {pos : Cell} {d : Nat}
    (vis : Visited) (D : DGrid) (mode : Nat) (acc : Int × Option Nat)
    (hblk : w pos d = true ∨ nbr pos d = none) :
    chooseStepFF w vis D mode pos acc d = acc := by
  unfold chooseStepFF
  rcases hblk with hw | hn
  · rw [if_pos hw]
  · by_cases hw : w pos d = true
    · rw [if_pos hw]
    · rw [if_neg hw, hn]

theorem chooseDirScan_none {w : Walls} {pos : Cell} (vis : Visited) (D : DGrid)
    (mode : Nat) (hall : ∀ d, d < 4 → w pos d = true ∨ nbr pos d = none) :
    chooseDirScan w vis D mode pos = none := by
  unfold chooseDirScan
  rw [chooseStepFF_blocked vis D mode _ (hall 0 (by omega)),
    chooseStepFF_blocked vis D mode _ (hall 1 (by omega)),
    chooseStepFF_blocked vis D mode _ (hall 2 (by omega)),
    chooseStepFF_blocked vis D mode _ (hall 3 (by omega))]

theorem chooseStepV3_blocked {s : StateV3} {d : Nat} (acc : Int × Option Nat)
    (h : has_wall s.walls s.pos d = true) : chooseStepV3 s acc d = acc := by
  unfold chooseStepV3
  rw [if_pos h]

theorem choose_next_direction_enclosed {s : StateV3}
    (hall : ∀ d, d < 4 → has_wall s.walls s.pos d = true) :
    choose_next_direction s = opp s.dir := by
  unfold choose_next_direction
  rw [chooseStepV3_blocked _ (hall 0 (by omega)), chooseStepV3_blocked _ (hall 1 (by omega)),
    chooseStepV3_blocked _ (hall 2 (by omega)), chooseStepV3_blocked _ (hall 3 (by omega))]

/-- C4: on a blocked move in SEARCH or RETURN, both engines record the wall
at the current cell in the chosen direction together with its mirror on the
in-bounds neighbor, immediately recompute the distance field toward the
active phase's target over the new walls (goal in SEARCH, start in RETURN),
and leave the position unchanged. -/
theorem C4_move_failure_records_wall :
    (∀ (s : StateFF) (d : Nat),
      chooseDirScan s.walls s.vis s.dist s.mode s.pos = some d →
        (moveToNextCellFF true s).1.pos = s.pos ∧
        (moveToNextCellFF true s).1.walls = pairSet s.walls s.pos d true ∧
        (moveToNextCellFF true s).1.walls s.pos d = true ∧
        (∀ n, nbr s.pos d = some n → (moveToNextCellFF true s).1.walls n (opp d) = true) ∧
        (moveToNextCellFF true s).1.dist =
          (if s.mode = 0 then floodFillToGoal (pairSet s.walls s.pos d true) s.pos
           else if s.mode = 1 then floodFillToStart (pairSet s.walls s.pos d true)
           else s.dist)) ∧
    (∀ (s : StateV3), s.dir < 4 → inB s.pos = true →
      (move_forward_update_state true s).1.pos = s.pos ∧
        (move_forward_update_state true s).1.walls =
          set_wall s.walls s.pos (choose_next_direction s) ∧
        has_wall (move_forward_update_state true s).1.walls s.pos
          (choose_next_direction s) = true ∧
        (∀ n, nbr s.pos (choose_next_direction s) = some n →
          has_wall (move_forward_update_state true s).1.walls n
            (opp (choose_next_direction s)) = true) ∧
        (move_forward_update_state true s).1.dist =
          (if s.mode = 0 then
            flood_fill_goal (set_wall s.walls s.pos (choose_next_direction s))
           else if s.mode = 1 then
            flood_fill_start (set_wall s.walls s.pos (choose_next_direction s))
           else s.dist)) := by
  constructor
  · intro s d hscan
    have hd4 : d < 4 := chooseDirScan_lt4 hscan
    unfold moveToNextCellFF
    rw [hscan]
    refine ⟨rfl, rfl, pairSet_self s.walls s.pos d true hd4, ?_, rfl⟩
    intro n hn
    exact pairSet_mirror s.walls s.pos d true hn
  · intro s hdir hin
    have hch4 : choose_next_direction s < 4 := choose_next_direction_lt4 s
    unfold move_forward_update_state
    dsimp only
    rw [turnActs_orient s.dir (choose_next_direction s) hdir hch4]
    refine ⟨rfl, rfl, ?_, ?_, rfl⟩
    · have : has_wall (set_wall s.walls s.pos (choose_next_direction s)) s.pos
          (choose_next_direction s) = true := by
        unfold has_wall
        rw [if_pos hin]
        exact set_wall_self s.walls s.pos _ hin hch4
      exact this
    · intro n hn
      unfold has_wall
      rw [if_pos (nbr_inB hn)]
      exact set_wall_mirror s.walls s.pos _ hin hn

/-- C4 witness: at an interior cell with boundary-only walls, the ff.c scan
selects north and both engines, on a blocked move, keep their position. -/
theorem C4_move_failure_records_wall_witness :
    chooseDirScan stateC4ff.walls stateC4ff.vis stateC4ff.dist stateC4ff.mode
        stateC4ff.pos = some 0 ∧
      (moveToNextCellFF true stateC4ff).1.pos = stateC4ff.pos ∧
      (move_forward_update_state true stateC4v3).1.pos = stateC4v3.pos :=
  ⟨by decide, (C4_move_failure_records_wall.1 stateC4ff 0 (by decide)).1,
    (C4_move_failure_records_wall.2 stateC4v3 (by decide) (by decide)).1⟩

/-- C8: in ff.c, when every direction at the current cell is blocked by a
recorded wall or out of bounds, `moveToNextCell` only logs: it issues no
actuation and returns the state unchanged.  ffv3.c's
`choose_next_direction` instead falls back to the opposite of the current
orientation, so its step turns around and attempts the (blocked) move:
position is kept but the orientation is reversed and actuations are
issued. -/
theorem C8_enclosed_hold :
    (∀ (s : StateFF) (blocked : Bool),
      (∀ d, d < 4 → s.walls s.pos d = true ∨ nbr s.pos d = none) →
        moveToNextCellFF blocked s = (s, [])) ∧
    (∀ (s : StateV3), (∀ d, d < 4 → has_wall s.walls s.pos d = true) → s.dir < 4 →
      (move_forward_update_state true s).1.pos = s.pos ∧
        (move_forward_update_state true s).1.dir = opp s.dir ∧
        (move_forward_update_state true s).2 ≠ []) := by
  constructor
  · intro s blocked hall
    unfold moveToNextCellFF
    rw [chooseDirScan_none s.vis s.dist s.mode hall]
  · intro s hall hdir
    have hch := choose_next_direction_enclosed hall
    unfold move_forward_update_state
    dsimp only
    rw [hch, turnActs_orient s.dir (opp s.dir) hdir (opp_lt4 s.dir)]
    refine ⟨rfl, rfl, by simp⟩

/-- C8 witness: at the fully enclosed cell `(3,3)` the ff.c navigation step
is a strict no-op. -/
theorem C8_enclosed_hold_witness :
    (∀ d, d < 4 → stateC8ff.walls stateC8ff.pos d = true ∨ nbr stateC8ff.pos d = none) ∧
      moveToNextCellFF false stateC8ff = (stateC8ff, []) :=
  ⟨by decide, (C8_enclosed_hold.1 stateC8ff false (by decide))⟩

/-- C8 counterexample: at the fully enclosed cell `(3,3)`, facing north,
ffv3.c turns around (two right turns and a move attempt) and ends the tick
facing south — it does not leave the orientation unchanged nor withhold
actuations. -/
theorem C8_counterexample :
    (∀ d, d < 4 → has_wall stateC8v3.walls stateC8v3.pos d = true) ∧
      stateC8v3.dir = 0 ∧
      (move_forward_update_state true stateC8v3).1.dir = 2 ∧
      (move_forward_update_state true stateC8v3).2 =
        [ActT.turnR, ActT.turnR, ActT.moveF] := by
  refine ⟨by decide, rfl, by decide, by decide⟩

/-! ### Equivalence of the compute_shortest_path scan with the spec rule -/

theorem scan_foldl_filterMap (w : Walls) (D : DGrid) (c : Cell) :
    ∀ (ds : List Nat) (acc : Int × Option Cell),
      ((acc.2 = none ∧ acc.1 = dget D c) ∨
        (∃ v, acc.2 = some v ∧ acc.1 = dget D v ∧ dget D v < dget D c)) →
      (ds.foldl (scanStepV3 w D c) acc).2 =
        ((ds.filterMap fun d => if has_wall w c d then none else nbr c d).filter
          (fun v => decide (dget D v < dget D c))).foldl (specStep D) acc.2 := by
  intro ds
  induction ds with
  | nil => intro acc _; rfl
  | cons d tl ih =>
      intro acc hacc
      rw [List.foldl_cons, List.filterMap_cons]
      by_cases hw : has_wall w c d = true
      · rw [if_pos hw]
        have hstep : scanStepV3 w D c acc d = acc := by
          unfold scanStepV3
          rw [if_pos hw]
        rw [hstep]
        exact ih acc hacc
      · rw [if_neg hw]
        cases hn : nbr c d with
        | none =>
            have hstep : scanStepV3 w D c acc d = acc := by
              unfold scanStepV3
              rw [if_neg hw, hn]
            rw [hstep]
            exact ih acc hacc
        | some n =>
            have hstep : scanStepV3 w D c acc d =
                (if dget D n < acc.1 then (dget D n, some n) else acc) := by
              unfold scanStepV3
              rw [if_neg hw, hn]
            rw [List.filter_cons]
            by_cases hlt : dget D n < acc.1
            · rw [hstep, if_pos hlt]
              have hnc : dget D n < dget D c := by
                rcases hacc with ⟨_, h1⟩ | ⟨v, _, h1, h2⟩
                · rw [h1] at hlt
                  exact hlt
                · rw [h1] at hlt
                  omega
              rw [if_pos (by simpa using hnc)]
              rw [List.foldl_cons]
              have hspec : specStep D acc.2 n = some n := by
                rcases hacc with ⟨h0, _⟩ | ⟨v, h0, h1, _⟩
                · rw [h0]
                  rfl
                · rw [h0]
                  simp only [specStep]
                  rw [h1] at hlt
                  rw [if_pos hlt]
              rw [hspec]
              exact ih (dget D n, some n) (Or.inr ⟨n, rfl, rfl, hnc⟩)
            · rw [hstep, if_neg hlt]
              by_cases hnc : dget D n < dget D c
              · rw [if_pos (by simpa using hnc), List.foldl_cons]
                have hspec : specStep D acc.2 n = acc.2 := by
                  rcases hacc with ⟨h0, h1⟩ | ⟨v, h0, h1, h2⟩
                  · exfalso
                    rw [h1] at hlt
                    exact hlt hnc
                  · rw [h0]
                    simp only [specStep]
                    rw [h1] at hlt
                    rw [if_neg hlt]
                rw [hspec]
                exact ih acc hacc
              · rw [if_neg (by simpa using hnc)]
                exact ih acc hacc

theorem v3NextCell_eq_specChoose (w : Walls) (D : DGrid) (c : Cell) :
    v3NextCell w D c = specChoose w D c := by
  have h := scan_foldl_filterMap w D c [0, 1, 2, 3] (dget D c, none) (Or.inl ⟨rfl, rfl⟩)
  exact h

theorem specFold_mem (D : DGrid) :
    ∀ (l : List Cell) (acc : Option Cell) (v : Cell),
      l.foldl (specStep D) acc = some v → acc = some v ∨ v ∈ l := by
  intro l
  induction l with
  | nil => intro acc v h; exact Or.inl h
  | cons a tl ih =>
      intro acc v h
      rw [List.foldl_cons] at h
      rcases ih _ v h with h1 | h1
      · cases acc with
        | none =>
            simp only [specStep] at h1
            right
            rw [← Option.some.inj h1]
            exact List.mem_cons_self a tl
        | some b =>
            simp only [specStep] at h1
            by_cases hlt : dget D a < dget D b
            · rw [if_pos hlt] at h1
              right
              rw [← Option.some.inj h1]
              exact List.mem_cons_self a tl
            · rw [if_neg hlt] at h1
              left
              exact h1
      · right
        exact List.mem_cons_of_mem a h1

theorem specChoose_mem {w : Walls} {D : DGrid} {c v : Cell}
    (h : specChoose w D c = some v) :
    (∃ d, d < 4 ∧ has_wall w c d = false ∧ nbr c d = some v) ∧ dget D v < dget D c := by
  unfold specChoose at h
  rcases specFold_mem D _ none v h with h1 | h1
  · exact absurd h1 (by simp)
  · rw [List.mem_filter] at h1
    obtain ⟨hmem, hlt⟩ := h1
    refine ⟨?_, by simpa using hlt⟩
    unfold openNbrs at hmem
    rw [List.mem_filterMap] at hmem
    obtain ⟨d, hd, hsome⟩ := hmem
    by_cases hw : has_wall w c d = true
    · rw [if_pos hw] at hsome
      exact absurd hsome (by simp)
    · rw [if_neg hw] at hsome
      exact ⟨d, by simpa using hd, by simpa using hw, hsome⟩

theorem has_wall_false {w : Walls} {c : Cell} {d : Nat} (h : has_wall w c d = false) :
    inB c = true ∧ w c d = false := by
  unfold has_wall at h
  by_cases hin : inB c = true
  · rw [if_pos hin] at h
    exact ⟨hin, h⟩
  · rw [if_neg hin] at h
    exact absurd h (by simp)

theorem v3Walk_eq_specWalk (w : Walls) (D : DGrid) :
    ∀ (fuel : Nat) (c : Cell) (acc : List Cell),
      v3Walk w D fuel c acc = specGreedyWalk w D fuel c acc := by
  intro fuel
  induction fuel with
  | zero => intro c acc; rfl
  | succ n ih =>
      intro c acc
      unfold v3Walk specGreedyWalk
      rw [v3NextCell_eq_specChoose]
      by_cases hg : isGoal c = true
      · rw [if_pos hg, if_pos hg]
      · rw [if_neg hg, if_neg hg]
        cases specChoose w D c with
        | none => rfl
        | some nx =>
            dsimp only
            by_cases hl : acc.length < 256
            · rw [if_pos hl, if_pos hl, ih]
            · rw [if_neg hl, if_neg hl]

theorem flood_fill_goal_lb (w : Walls) (c : Cell) : 0 ≤ dget (flood_fill_goal w) c :=
  (sweep_SInv w goalList sweepFuel _ (initSt_SInv w goalList (by decide))).lb c

theorem flood_fill_goal_ub (w : Walls) (c : Cell) : dget (flood_fill_goal w) c ≤ 256 :=
  (sweep_SInv w goalList sweepFuel _ (initSt_SInv w goalList (by decide))).ub c

theorem v3Walk_fuel_irrel (w : Walls) (D : DGrid) (hlb : ∀ v, 0 ≤ dget D v) :
    ∀ (k fuel fuel' : Nat) (c : Cell) (acc : List Cell),
      (dget D c).toNat < k → k ≤ fuel → k ≤ fuel' →
      v3Walk w D fuel c acc = v3Walk w D fuel' c acc := by
  intro k
  induction k with
  | zero => intro fuel fuel' c acc hk _ _; omega
  | succ k ih =>
      intro fuel fuel' c acc hk h1 h2
      obtain ⟨f, rfl⟩ : ∃ f, fuel = f + 1 := ⟨fuel - 1, by omega⟩
      obtain ⟨f', rfl⟩ : ∃ f', fuel' = f' + 1 := ⟨fuel' - 1, by omega⟩
      unfold v3Walk
      by_cases hg : isGoal c = true
      · rw [if_pos hg, if_pos hg]
      · rw [if_neg hg, if_neg hg]
        cases hnx : v3NextCell w D c with
        | none => rfl
        | some n =>
            dsimp only
            by_cases hl : acc.length < 256
            · rw [if_pos hl, if_pos hl]
              have hsc : specChoose w D c = some n := by
                rw [← v3NextCell_eq_specChoose]
                exact hnx
              have hlt : dget D n < dget D c := (specChoose_mem hsc).2
              have hkn : (dget D n).toNat < k := by
                have := hlb n
                have := hlb c
                omega
              exact ih f f' n (acc ++ [n]) hkn (by omega) (by omega)
            · rw [if_neg hl, if_neg hl]

theorem compute_shortest_path_fuel_enough (w : Walls) (fuel : Nat) (hf : 257 ≤ fuel) :
    (if dget (flood_fill_goal w) (0, 0) == 256 then []
      else v3Walk w (flood_fill_goal w) fuel (0, 0) [(0, 0)]) =
      compute_shortest_path w := by
  unfold compute_shortest_path
  dsimp only
  by_cases h0 : (dget (flood_fill_goal w) (0, 0) == 256) = true
  · rw [if_pos h0, if_pos h0]
  · rw [if_neg h0, if_neg h0]
    refine v3Walk_fuel_irrel w _ (flood_fill_goal_lb w) 257 fuel 300 (0, 0) [(0, 0)] ?_ hf (by omega)
    have := flood_fill_goal_ub w (0, 0)
    have := flood_fill_goal_lb w (0, 0)
    omega

theorem v3Walk_chain (w : Walls) (D : DGrid) :
    ∀ (fuel : Nat) (c : Cell) (acc : List Cell),
      acc.getLast? = some c →
      List.Chain' (fun a b => AdjB w a b ∧ dget D b < dget D a) acc →
      v3Walk w D fuel c acc ≠ [] →
      (v3Walk w D fuel c acc).head? = acc.head? ∧
        List.Chain' (fun a b => AdjB w a b ∧ dget D b < dget D a) (v3Walk w D fuel c acc) ∧
        ∀ e, (v3Walk w D fuel c acc).getLast? = some e → isGoal e = true := by
  intro fuel
  induction fuel with
  | zero => intro c acc _ _ hne; exact absurd rfl hne
  | succ f ih =>
      intro c acc hlast hchain hne
      unfold v3Walk at hne ⊢
      by_cases hg : isGoal c = true
      · rw [if_pos hg] at hne ⊢
        refine ⟨rfl, hchain, ?_⟩
        intro e he
        rw [hlast] at he
        rw [← Option.some.inj he]
        exact hg
      · rw [if_neg hg] at hne ⊢
        cases hnx : v3NextCell w D c with
        | none =>
            rw [hnx] at hne
            exact absurd rfl hne
        | some n =>
            rw [hnx] at hne
            dsimp only at hne ⊢
            by_cases hl : acc.length < 256
            · rw [if_pos hl] at hne ⊢
              have hsc : specChoose w D c = some n := by
                rw [← v3NextCell_eq_specChoose]
                exact hnx
              obtain ⟨⟨d, hd4, hwd, hnb⟩, hlt⟩ := specChoose_mem hsc
              obtain ⟨hin, hwf⟩ := has_wall_false hwd
              have hR : AdjB w c n ∧ dget D n < dget D c := ⟨⟨d, hd4, hwf, hnb⟩, hlt⟩
              have hlast' : (acc ++ [n]).getLast? = some n := by
                rw [List.getLast?_concat]
              have hchain' :
                  List.Chain' (fun a b => AdjB w a b ∧ dget D b < dget D a) (acc ++ [n]) := by
                refine List.Chain'.append hchain (List.chain'_singleton n) ?_
                intro x hx y hy
                rw [hlast] at hx
                simp only [Option.mem_def, Option.some.injEq] at hx
                simp only [List.head?_cons, Option.mem_def, Option.some.injEq] at hy
                rw [← hx, ← hy]
                exact hR
              have hhead : (acc ++ [n]).head? = acc.head? := by
                cases acc with
                | nil => exact absurd hlast (by simp)
                | cons a t => rfl
              obtain ⟨h1, h2, h3⟩ := ih n (acc ++ [n]) hlast' hchain' hne
              exact ⟨h1.trans hhead, h2, h3⟩
            · rw [if_neg hl] at hne
              exact absurd rfl hne

/-- C3: ffv3.c `compute_shortest_path` equals the specified greedy descent
(the first open neighbor with strictly smaller goal distance, scanned in
the fixed N,E,S,W order, failure yielding the empty path), and every
non-empty result starts at `(0,0)`, moves only along open edges with
strictly decreasing goal distance, and ends on a goal cell.  (ff.c's
variant is refuted separately: on failure it keeps the partial path.) -/
theorem C3_greedy_descent (w : Walls) :
    compute_shortest_path w = specGreedy w ∧
    (compute_shortest_path w ≠ [] →
      (compute_shortest_path w).head? = some ((0, 0) : Cell) ∧
      List.Chain' (fun a b => AdjB w a b ∧
        dget (flood_fill_goal w) b < dget (flood_fill_goal w) a)
        (compute_shortest_path w) ∧
      ∀ e, (compute_shortest_path w).getLast? = some e → isGoal e = true) := by
  constructor
  · unfold compute_shortest_path specGreedy
    dsimp only
    rw [v3Walk_eq_specWalk]
  · intro hne
    unfold compute_shortest_path at hne ⊢
    dsimp only at hne ⊢
    by_cases h0 : (dget (flood_fill_goal w) (0, 0) == 256) = true
    · rw [if_pos h0] at hne
      exact absurd rfl hne
    · rw [if_neg h0] at hne ⊢
      have h := v3Walk_chain w (flood_fill_goal w) 300 (0, 0) [(0, 0)] rfl
        (List.chain'_singleton _) hne
      exact ⟨h.1, h.2.1, h.2.2⟩

set_option maxRecDepth 2000000 in
set_option maxHeartbeats 8000000 in
theorem C3_greedy_descent_witness :
    compute_shortest_path boundaryWalls ≠ [] ∧
      ((compute_shortest_path boundaryWalls).head? = some ((0, 0) : Cell) ∧
        List.Chain' (fun a b => AdjB boundaryWalls a b ∧
          dget (flood_fill_goal boundaryWalls) b < dget (flood_fill_goal boundaryWalls) a)
          (compute_shortest_path boundaryWalls) ∧
        ∀ e, (compute_shortest_path boundaryWalls).getLast? = some e → isGoal e = true) :=
  have h : compute_shortest_path boundaryWalls ≠ [] := by decide
  ⟨h, (C3_greedy_descent boundaryWalls).2 h⟩

/-- C3 counterexample: ff.c `computeShortestPath` does not fail with an
empty path.  With the start cell walled in on every side the greedy scan
finds no next cell at the very first step, yet the function returns the
partial path `[(0,0)]`, which is non-empty (lines 896-899 break out of the
loop leaving `pathLength` as it stands). -/
theorem C3_counterexample :
    computeShortestPathFF enclosedStartWalls (0, 0) = [((0, 0) : Cell)] ∧
      computeShortestPathFF enclosedStartWalls (0, 0) ≠ [] := by
  constructor
  · rfl
  · decide

/-! ### C2: path verification and re-entry into SEARCH -/

theorem v3VerifyGo_sound (w : Walls) (vis : Visited) :
    ∀ (p : List Cell) (prev : Option Cell),
      v3VerifyGo w vis prev p = true →
      (∀ c ∈ p, inB c = true ∧ vis c = true) ∧
      List.Chain' (fun a b => ∃ d, dirTo a b = some d ∧ has_wall w a d = false)
        (prev.toList ++ p) := by
  intro p
  induction p with
  | nil =>
      intro prev _
      refine ⟨by intro c hc; exact absurd hc (List.not_mem_nil c), ?_⟩
      cases prev with
      | none => exact List.chain'_nil
      | some pr => exact List.chain'_singleton pr
  | cons c rest ih =>
      intro prev h
      unfold v3VerifyGo at h
      by_cases hin : inB c = true
      · by_cases hv : vis c = true
        · rw [hin, hv] at h
          simp only [Bool.not_true, Bool.false_eq_true, if_false] at h
          cases prev with
          | none =>
              obtain ⟨hmem, hchain⟩ := ih (some c) h
              refine ⟨?_, hchain⟩
              intro e he
              rcases List.mem_cons.mp he with rfl | he
              · exact ⟨hin, hv⟩
              · exact hmem e he
          | some pr =>
              dsimp only at h
              cases hd : dirTo pr c with
              | none =>
                  rw [hd] at h
                  exact absurd h (by simp)
              | some d =>
                  rw [hd] at h
                  dsimp only at h
                  by_cases hw : has_wall w pr d = true
                  · rw [hw] at h
                    simp only [if_true] at h
                    exact absurd h (by simp)
                  · rw [Bool.not_eq_true] at hw
                    rw [hw] at h
                    simp only [Bool.false_eq_true, if_false] at h
                    obtain ⟨hmem, hchain⟩ := ih (some c) h
                    refine ⟨?_, ?_⟩
                    · intro e he
                      rcases List.mem_cons.mp he with rfl | he
                      · exact ⟨hin, hv⟩
                      · exact hmem e he
                    · exact List.chain'_cons.mpr ⟨⟨d, hd, hw⟩, hchain⟩
        · rw [Bool.not_eq_true] at hv
          rw [hin, hv] at h
          exact absurd h (by simp)
      · rw [Bool.not_eq_true] at hin
        rw [hin] at h
        exact absurd h (by simp)

theorem verify_path_exploration_sound {s : StateV3}
    (hv : verify_path_exploration s = true) :
    1 < s.path.length ∧
      (∀ c ∈ s.path, inB c = true ∧ s.vis c = true) ∧
      List.Chain' (fun a b => ∃ d, dirTo a b = some d ∧ has_wall s.walls a d = false)
        s.path := by
  unfold verify_path_exploration at hv
  by_cases hlen : s.path.length ≤ 1
  · rw [if_pos hlen] at hv
    exact absurd hv (by simp)
  · rw [if_neg hlen] at hv
    obtain ⟨hmem, hchain⟩ := v3VerifyGo_sound s.walls s.vis s.path none hv
    exact ⟨by omega, hmem, hchain⟩

/-- C2: in ffv3.c, `verify_path_exploration` accepts only paths whose every
cell is in bounds and visited and whose consecutive cells are joined by a
recorded-open edge; and whenever the freshly computed path crosses an
unvisited cell, the RETURN-at-start branch re-enters SEARCH (mode 0) with
the flood fill retargeted at the first unvisited path cell.  (ff.c is
refuted separately: its verifier ignores visited flags and its branch
always proceeds to the speed run.) -/
theorem C2_verify_and_reenter (f r l : Bool) (s : StateV3) :
    (verify_path_exploration s = true →
      1 < s.path.length ∧
      (∀ c ∈ s.path, inB c = true ∧ s.vis c = true) ∧
      List.Chain' (fun a b => ∃ d, dirTo a b = some d ∧ has_wall s.walls a d = false)
        s.path) ∧
    ((0 < (compute_shortest_path (update_walls_v3 f r l s.pos s.dir s.walls)).length ∧
      ∃ c ∈ compute_shortest_path (update_walls_v3 f r l s.pos s.dir s.walls),
        s.vis c = false) →
      ∃ t, (compute_shortest_path (update_walls_v3 f r l s.pos s.dir s.walls)).find?
          (fun c => !(s.vis c)) = some t ∧
        (returnAtStartV3 f r l s).mode = 0 ∧
        (returnAtStartV3 f r l s).dist =
          flood_fill (update_walls_v3 f r l s.pos s.dir s.walls) t) := by
  constructor
  · exact fun hv => verify_path_exploration_sound hv
  · intro hh
    obtain ⟨hpos, c, hc, hvc⟩ := hh
    have hfind : ((compute_shortest_path
        (update_walls_v3 f r l s.pos s.dir s.walls)).find?
          (fun c => !(s.vis c))).isSome = true := by
      rw [List.find?_isSome]
      exact ⟨c, hc, by rw [hvc]; rfl⟩
    obtain ⟨t, ht⟩ := Option.isSome_iff_exists.mp hfind
    refine ⟨t, ht, ?_⟩
    have hver : verify_path_exploration (applyComputePathV3
        { s with walls := update_walls_v3 f r l s.pos s.dir s.walls }) = false := by
      by_cases hv : verify_path_exploration (applyComputePathV3
          { s with walls := update_walls_v3 f r l s.pos s.dir s.walls }) = true
      · exfalso
        have hmem := (verify_path_exploration_sound hv).2.1
        have hvt : (applyComputePathV3
            { s with walls := update_walls_v3 f r l s.pos s.dir s.walls }).vis c = true :=
          (hmem c hc).2
        have hvf : (applyComputePathV3
            { s with walls := update_walls_v3 f r l s.pos s.dir s.walls }).vis c = false := hvc
        rw [hvt] at hvf
        exact absurd hvf (by simp)
      · exact (Bool.not_eq_true _).mp hv
    have hpos1 : 0 < (applyComputePathV3
        { s with walls := update_walls_v3 f r l s.pos s.dir s.walls }).path.length := hpos
    have htg : ((applyComputePathV3
        { s with walls := update_walls_v3 f r l s.pos s.dir s.walls }).path.find?
          fun x => !((applyComputePathV3
            { s with walls := update_walls_v3 f r l s.pos s.dir s.walls }).vis x)) =
        some t := ht
    have hres : returnAtStartV3 f r l s =
        { applyComputePathV3 { s with walls := update_walls_v3 f r l s.pos s.dir s.walls } with
          dist := flood_fill (update_walls_v3 f r l s.pos s.dir s.walls) t, mode := 0 } := by
      unfold returnAtStartV3
      dsimp only
      rw [if_pos hpos1, hver]
      simp only [Bool.false_eq_true, if_false]
      rw [htg]
      rfl
    rw [hres]
    exact ⟨rfl, rfl⟩

set_option maxRecDepth 2000000 in
set_option maxHeartbeats 8000000 in
theorem C2_verify_and_reenter_witness :
    (0 < (compute_shortest_path (update_walls_v3 false false false stateC2v3.pos
        stateC2v3.dir stateC2v3.walls)).length ∧
      ∃ c ∈ compute_shortest_path (update_walls_v3 false false false stateC2v3.pos
        stateC2v3.dir stateC2v3.walls), stateC2v3.vis c = false) ∧
      ∃ t, (compute_shortest_path (update_walls_v3 false false false stateC2v3.pos
          stateC2v3.dir stateC2v3.walls)).find? (fun c => !(stateC2v3.vis c)) = some t ∧
        (returnAtStartV3 false false false stateC2v3).mode = 0 ∧
        (returnAtStartV3 false false false stateC2v3).dist =
          flood_fill (update_walls_v3 false false false stateC2v3.pos stateC2v3.dir
            stateC2v3.walls) t :=
  have h : 0 < (compute_shortest_path (update_walls_v3 false false false stateC2v3.pos
        stateC2v3.dir stateC2v3.walls)).length ∧
      ∃ c ∈ compute_shortest_path (update_walls_v3 false false false stateC2v3.pos
        stateC2v3.dir stateC2v3.walls), stateC2v3.vis c = false := by decide
  ⟨h, (C2_verify_and_reenter false false false stateC2v3).2 h⟩

/-- C2 counterexample: ff.c's `verifyShortestPath` checks only adjacency
and recorded walls, never the visited flags, and ff.c's RETURN-at-start
branch enters SPEED mode unconditionally.  From a RETURN state at the start
with only `(0,0)` visited, the computed path verifies successfully even
though it crosses unvisited cells, and the branch sets mode to SPEED
instead of re-entering SEARCH. -/
theorem C2_counterexample :
    verifyShortestPathFF stateC2ff.walls
        (computeShortestPathFF stateC2ff.walls stateC2ff.pos) = true ∧
      (∃ c ∈ computeShortestPathFF stateC2ff.walls stateC2ff.pos,
        stateC2ff.vis c = false) ∧
      (ffReturnAtStartBranch false false false false false false stateC2ff).mode = 2 := by
  refine ⟨by decide, by decide, rfl⟩

/-! ### C10: display purity -/

theorem displayCellFF_frame (s : StateFF) (c : Cell) :
    (displayCellFF s c).pos = s.pos ∧ (displayCellFF s c).dir = s.dir ∧
    (displayCellFF s c).mode = s.mode ∧ (displayCellFF s c).goalFound = s.goalFound ∧
    (displayCellFF s c).explore = s.explore ∧ (displayCellFF s c).jrg = s.jrg ∧
    (displayCellFF s c).walls = s.walls ∧ (displayCellFF s c).vis = s.vis ∧
    (displayCellFF s c).path = s.path := by
  unfold displayCellFF
  dsimp only
  repeat' split
  all_goals exact ⟨rfl, rfl, rfl, rfl, rfl, rfl, rfl, rfl, rfl⟩

theorem displayFold_frame :
    ∀ (l : List Cell) (s : StateFF),
      (l.foldl displayCellFF s).pos = s.pos ∧ (l.foldl displayCellFF s).dir = s.dir ∧
      (l.foldl displayCellFF s).mode = s.mode ∧
      (l.foldl displayCellFF s).goalFound = s.goalFound ∧
      (l.foldl displayCellFF s).explore = s.explore ∧
      (l.foldl displayCellFF s).jrg = s.jrg ∧
      (l.foldl displayCellFF s).walls = s.walls ∧
      (l.foldl displayCellFF s).vis = s.vis ∧
      (l.foldl displayCellFF s).path = s.path := by
  intro l
  induction l with
  | nil => intro s; exact ⟨rfl, rfl, rfl, rfl, rfl, rfl, rfl, rfl, rfl⟩
  | cons c tl ih =>
      intro s
      rw [List.foldl_cons]
      obtain ⟨h1, h2, h3, h4, h5, h6, h7, h8, h9⟩ := ih (displayCellFF s c)
      obtain ⟨g1, g2, g3, g4, g5, g6, g7, g8, g9⟩ := displayCellFF_frame s c
      exact ⟨h1.trans g1, h2.trans g2, h3.trans g3, h4.trans g4, h5.trans g5,
        h6.trans g6, h7.trans g7, h8.trans g8, h9.trans g9⟩

theorem displayCellFF_id_of_calm (s : StateFF) (c : Cell)
    (h : ¬(s.mode = 1 ∧ s.explore = false) ∨ (c = s.pos ∨ isGoal c = true ∨ s.vis c = true)) :
    displayCellFF s c = s := by
  unfold displayCellFF
  by_cases hp : c = s.pos
  · rw [if_pos hp]
  · rw [if_neg hp]
    by_cases hg : isGoal c = true
    · rw [if_pos hg]
    · rw [if_neg hg]
      by_cases hm : s.mode = 1 ∧ s.explore = false
      · rw [if_pos hm]
        have hv : s.vis c = true := by
          rcases h with h | h
          · exact absurd hm h
          · rcases h with h | h | h
            · exact absurd h hp
            · exact absurd h hg
            · exact h
        rw [hv]
        simp only [if_true]
      · rw [if_neg hm]

theorem displayFold_id_of_calm :
    ∀ (l : List Cell) (s : StateFF),
      (∀ c ∈ l, ¬(s.mode = 1 ∧ s.explore = false) ∨
        (c = s.pos ∨ isGoal c = true ∨ s.vis c = true)) →
      l.foldl displayCellFF s = s := by
  intro l
  induction l with
  | nil => intro s _; rfl
  | cons c tl ih =>
      intro s h
      rw [List.foldl_cons, displayCellFF_id_of_calm s c (h c (List.mem_cons_self c tl))]
      exact ih s fun e he => h e (List.mem_cons_of_mem c he)

/-- C10: ffv3.c's `update_display` takes the mouse state and maze through
const pointers and changes nothing.  ff.c's `updateDisplay` preserves the
walls, visited flags, pose, mode, flags and path, and preserves the
distance field outside the RETURN-mode pre-exploration-complete window and
whenever every non-current, non-goal cell is visited; inside that window
an unvisited cell rewrites the distance field (refuted separately), so for
ff.c the claim's "for every mode and every state" is false. -/
theorem C10_display_core_state (s : StateFF) (t : StateV3) :
    update_displayV3 t = t ∧
    (updateDisplayFF s).walls = s.walls ∧ (updateDisplayFF s).vis = s.vis ∧
    (updateDisplayFF s).pos = s.pos ∧ (updateDisplayFF s).dir = s.dir ∧
    (updateDisplayFF s).mode = s.mode ∧ (updateDisplayFF s).path = s.path ∧
    (¬(s.mode = 1 ∧ s.explore = false) → updateDisplayFF s = s) ∧
    ((∀ c, c = s.pos ∨ isGoal c = true ∨ s.vis c = true) → updateDisplayFF s = s) := by
  obtain ⟨h1, h2, h3, h4, h5, h6, h7, h8, h9⟩ := displayFold_frame gridCells s
  refine ⟨rfl, h7, h8, h1, h2, h3, h9, ?_, ?_⟩
  · intro hm
    exact displayFold_id_of_calm gridCells s fun c _ => Or.inl hm
  · intro hv
    exact displayFold_id_of_calm gridCells s fun c _ => Or.inr (hv c)

theorem C10_display_core_state_witness :
    update_displayV3 initStateV3 = initStateV3 ∧
    (updateDisplayFF stateC10all).walls = stateC10all.walls ∧
    (updateDisplayFF stateC10all).vis = stateC10all.vis ∧
    (updateDisplayFF stateC10all).pos = stateC10all.pos ∧
    (updateDisplayFF stateC10all).dir = stateC10all.dir ∧
    (updateDisplayFF stateC10all).mode = stateC10all.mode ∧
    (updateDisplayFF stateC10all).path = stateC10all.path ∧
    (¬(stateC10all.mode = 1 ∧ stateC10all.explore = false) →
      updateDisplayFF stateC10all = stateC10all) ∧
    ((∀ c, c = stateC10all.pos ∨ isGoal c = true ∨ stateC10all.vis c = true) →
      updateDisplayFF stateC10all = stateC10all) :=
  have h := C10_display_core_state stateC10all initStateV3
  ⟨h.1, h.2.1, h.2.2.1, h.2.2.2.1, h.2.2.2.2.1, h.2.2.2.2.2.1, h.2.2.2.2.2.2.1,
    fun _ => h.2.2.2.2.2.2.2.1 (by decide),
    fun _ => h.2.2.2.2.2.2.2.2 (fun c => Or.inr (Or.inr rfl))⟩

set_option maxRecDepth 2000000 in
set_option maxHeartbeats 8000000 in
/-- C10 counterexample: in an ff.c RETURN-mode state with the exploration
phase incomplete and the unvisited cell `(5,5)` sealed off by walls,
`updateDisplay` rewrites the distance field: the unvisited-cell branch
reruns `floodFillToGoal` and then the restoring
`floodFillToStartWithExploration`, so cell `(1,0)` goes from 0 to 1. -/
theorem C10_counterexample :
    dget (updateDisplayFF stateC10ff).dist (1, 0) = 1 ∧
      dget stateC10ff.dist (1, 0) = 0 ∧
      (updateDisplayFF stateC10ff).dist ≠ stateC10ff.dist := by
  refine ⟨by decide, by decide, ?_⟩
  intro h
  have h1 : dget (updateDisplayFF stateC10ff).dist (1, 0) = 1 := by decide
  rw [h] at h1
  have h0 : dget stateC10ff.dist (1, 0) = 0 := by decide
  rw [h0] at h1
  exact absurd h1 (by decide)

/-! ### C5: wall symmetry -/

theorem dxI_opp (d : Nat) (hd : d < 4) :
    dxI (opp d) = -dxI d ∧ dyI (opp d) = -dyI d := by
  interval_cases d <;> exact ⟨rfl, rfl⟩

theorem opp_opp (d : Nat) (hd : d < 4) : opp (opp d) = d := by
  interval_cases d <;> rfl

theorem nbr_coords {a n : Cell} {d : Nat} (h : nbr a d = some n) :
    (n.1 : Int) = (a.1 : Int) + dxI d ∧ (n.2 : Int) = (a.2 : Int) + dyI d := by
  unfold nbr at h
  by_cases hc : (0 ≤ (a.1 : Int) + dxI d ∧ (a.1 : Int) + dxI d < 16 ∧
      0 ≤ (a.2 : Int) + dyI d ∧ (a.2 : Int) + dyI d < 16)
  · rw [if_pos hc] at h
    have h2 := Option.some.inj h
    have hx := congrArg Prod.fst h2
    have hy := congrArg Prod.snd h2
    dsimp at hx hy
    constructor
    · rw [← hx]
      omega
    · rw [← hy]
      omega
  · rw [if_neg hc] at h
    exact absurd h (by simp)

theorem nbr_some_of_bounds {a c : Cell} {d : Nat}
    (h1 : (c.1 : Int) = (a.1 : Int) + dxI d) (h2 : (c.2 : Int) = (a.2 : Int) + dyI d)
    (h3 : inB c = true) : nbr a d = some c := by
  have hb : c.1 < 16 ∧ c.2 < 16 := by
    simp only [inB, Bool.and_eq_true, decide_eq_true_eq] at h3
    exact h3
  unfold nbr
  rw [if_pos (by omega)]
  refine congrArg some ?_
  have hx : ((a.1 : Int) + dxI d).toNat = c.1 := by omega
  have hy : ((a.2 : Int) + dyI d).toNat = c.2 := by omega
  rw [hx, hy]

theorem pairSet_eval_some {w : Walls} {a : Cell} {d : Nat} {b : Bool} {n : Cell}
    (hn : nbr a d = some n) (c : Cell) (dd : Nat) :
    pairSet w a d b c dd =
      if c = n ∧ dd = opp d then b else if c = a ∧ dd = d then b else w c dd := by
  unfold pairSet
  rw [hn]
  rfl

theorem pairSet_eval_none {w : Walls} {a : Cell} {d : Nat} {b : Bool}
    (hn : nbr a d = none) (c : Cell) (dd : Nat) :
    pairSet w a d b c dd = if c = a ∧ dd = d then b else w c dd := by
  unfold pairSet
  rw [hn]
  rfl

theorem WallSym_pairSet {w : Walls} (a : Cell) {d : Nat} (b : Bool) (hd : d < 4)
    (hs : WallSym w) : WallSym (pairSet w a d b) := by
  intro x hx y hy dd hdd
  have hbase := hs x hx y hy dd hdd
  cases hnb : nbr (x, y) dd with
  | none => simp [Option.all]
  | some nb =>
      rw [hnb] at hbase
      simp only [Option.all_some, beq_iff_eq] at hbase ⊢
      obtain ⟨hcx, hcy⟩ := nbr_coords hnb
      have hnbB : nb.1 < 16 ∧ nb.2 < 16 := by
        have := nbr_inB hnb
        simp only [inB, Bool.and_eq_true, decide_eq_true_eq] at this
        exact this
      obtain ⟨hox, hoy⟩ := dxI_opp dd hdd
      obtain ⟨hox2, hoy2⟩ := dxI_opp d hd
      cases hn : nbr a d with
      | none =>
          rw [pairSet_eval_none hn, pairSet_eval_none hn]
          have hL : ¬((x, y) = a ∧ dd = d) := by
            rintro ⟨he, rfl⟩
            rw [← he, hnb] at hn
            exact Option.noConfusion hn
          have hR : ¬(nb = a ∧ opp dd = d) := by
            rintro ⟨hna, hod⟩
            have ed : dxI d = -dxI dd := by
              rw [← hod]
              exact hox
            have ed2 : dyI d = -dyI dd := by
              rw [← hod]
              exact hoy
            have : nbr a d = some ((x, y) : Cell) := by
              refine nbr_some_of_bounds ?_ ?_ ?_
              · rw [← hna, ed]
                dsimp
                omega
              · rw [← hna, ed2]
                dsimp
                omega
              · simp only [inB, Bool.and_eq_true, decide_eq_true_eq]
                exact ⟨hx, hy⟩
            rw [this] at hn
            exact Option.noConfusion hn
          rw [if_neg hL, if_neg hR]
          exact hbase
      | some n =>
          rw [pairSet_eval_some hn, pairSet_eval_some hn]
          obtain ⟨hnx, hny⟩ := nbr_coords hn
          by_cases hP2 : ((x, y) : Cell) = n ∧ dd = opp d
          · obtain ⟨hxy, hddo⟩ := hP2
            have edd : dxI dd = -dxI d := by
              rw [hddo]
              exact (dxI_opp d hd).1
            have edd2 : dyI dd = -dyI d := by
              rw [hddo]
              exact (dxI_opp d hd).2
            have hR2 : nb = a ∧ opp dd = d := by
              constructor
              · have e1 : (nb.1 : Int) = (a.1 : Int) := by
                  have hx1 : ((x : Nat) : Int) = (n.1 : Int) := congrArg (fun p => ((Prod.fst p : Nat) : Int)) hxy
                  rw [hcx, hx1, hnx, edd]
                  ring
                have e2 : (nb.2 : Int) = (a.2 : Int) := by
                  have hy1 : ((y : Nat) : Int) = (n.2 : Int) := congrArg (fun p => ((Prod.snd p : Nat) : Int)) hxy
                  rw [hcy, hy1, hny, edd2]
                  ring
                exact Prod.ext (by omega) (by omega)
              · rw [hddo, opp_opp d hd]
            rw [if_pos ⟨hxy, hddo⟩]
            by_cases hc1 : nb = n ∧ opp dd = opp d
            · rw [if_pos hc1]
            · rw [if_neg hc1, if_pos hR2]
          · by_cases hP1 : ((x, y) : Cell) = a ∧ dd = d
            · obtain ⟨hxy, hddd⟩ := hP1
              have hnbn : nb = n := by
                rw [hxy, hddd] at hnb
                rw [hnb] at hn
                exact Option.some.inj hn
              rw [if_neg hP2, if_pos ⟨hxy, hddd⟩, if_pos ⟨hnbn, by rw [hddd]⟩]
            · have hR1 : ¬(nb = n ∧ opp dd = opp d) := by
                rintro ⟨hnn, hoo⟩
                have hddd : dd = d := by
                  have h5 := congrArg opp hoo
                  rw [opp_opp dd hdd, opp_opp d hd] at h5
                  exact h5
                apply hP1
                refine ⟨?_, hddd⟩
                have e1 : ((x : Nat) : Int) = (a.1 : Int) := by
                  have h6 := hcx
                  rw [hddd, hnn, hnx] at h6
                  omega
                have e2 : ((y : Nat) : Int) = (a.2 : Int) := by
                  have h6 := hcy
                  rw [hddd, hnn, hny] at h6
                  omega
                exact Prod.ext (by omega) (by omega)
              have hR2 : ¬(nb = a ∧ opp dd = d) := by
                rintro ⟨hna, hod⟩
                apply hP2
                have hdd2 : dd = opp d := by
                  rw [← hod, opp_opp dd hdd]
                refine ⟨?_, hdd2⟩
                have ed : dxI dd = -dxI d := by
                  rw [hdd2]
                  exact (dxI_opp d hd).1
                have ed2 : dyI dd = -dyI d := by
                  rw [hdd2]
                  exact (dxI_opp d hd).2
                have h7 : (a.1 : Int) = (x : Int) + dxI dd := by
                  rw [← hna]
                  exact hcx
                have h8 : (a.2 : Int) = (y : Int) + dyI dd := by
                  rw [← hna]
                  exact hcy
                have e1 : ((x : Nat) : Int) = (n.1 : Int) := by omega
                have e2 : ((y : Nat) : Int) = (n.2 : Int) := by omega
                exact Prod.ext (by omega) (by omega)
              rw [if_neg hP2, if_neg hP1, if_neg hR1, if_neg hR2]
              exact hbase

theorem WallSym_boundary : WallSym boundaryWalls := by decide

theorem WallSym_set_wall {w : Walls} (p : Cell) {d : Nat} (hd : d < 4)
    (hs : WallSym w) : WallSym (set_wall w p d) := by
  unfold set_wall
  split
  · exact WallSym_pairSet p true hd hs
  · exact hs

theorem WallSym_update_walls_v3 {w : Walls} (f r l : Bool) (p : Cell) {dir : Nat}
    (hd : dir < 4) (hs : WallSym w) : WallSym (update_walls_v3 f r l p dir w) := by
  unfold update_walls_v3
  dsimp only
  have h1 : WallSym (if f then set_wall w p dir else w) := by
    split
    · exact WallSym_set_wall p hd hs
    · exact hs
  have h2 : WallSym (if r then set_wall (if f then set_wall w p dir else w) p
      ((dir + 1) % 4) else (if f then set_wall w p dir else w)) := by
    split
    · exact WallSym_set_wall p (Nat.mod_lt _ (by omega)) h1
    · exact h1
  split
  · exact WallSym_set_wall p (Nat.mod_lt _ (by omega)) h2
  · exact h2

theorem WallSym_updateWallsFF {w : Walls} (f r l : Bool) (p : Cell) {dir : Nat}
    (hd : dir < 4) (hs : WallSym w) : WallSym (updateWallsFF f r l p dir w) := by
  unfold updateWallsFF
  dsimp only
  exact WallSym_pairSet p l (Nat.mod_lt _ (by omega))
    (WallSym_pairSet p r (Nat.mod_lt _ (by omega)) (WallSym_pairSet p f hd hs))

theorem foldTurn_lt4 : ∀ (l : List ActT) (x : Nat), x < 4 → l.foldl applyTurn x < 4 := by
  intro l
  induction l with
  | nil => intro x hx; exact hx
  | cons a tl ih =>
      intro x hx
      rw [List.foldl_cons]
      refine ih _ ?_
      cases a with
      | turnR => exact Nat.mod_lt _ (by omega)
      | turnL => exact Nat.mod_lt _ (by omega)
      | moveF => exact hx

theorem dirTo_lt4 {a b : Cell} {d : Nat} (h : dirTo a b = some d) : d < 4 := by
  unfold dirTo at h
  dsimp only at h
  repeat' split at h
  any_goals exact Option.noConfusion h
  all_goals injection h with h2
  all_goals omega

theorem v3FollowGo_sym (w : Walls) :
    ∀ (p : List Cell) (bs : List Bool) (pos : Cell) (dir : Nat),
      dir < 4 → WallSym w →
      WallSym (v3FollowGo w p bs pos dir).1 ∧ (v3FollowGo w p bs pos dir).2.2 < 4 := by
  intro p
  induction p with
  | nil => intro bs pos dir hd hs; exact ⟨hs, hd⟩
  | cons t rest ih =>
      intro bs pos dir hd hs
      unfold v3FollowGo
      cases hdt : dirTo pos t with
      | none => exact ⟨hs, hd⟩
      | some d =>
          dsimp only
          have hd4 : (turnActs dir d).foldl applyTurn dir < 4 := foldTurn_lt4 _ _ hd
          split
          · exact ⟨WallSym_set_wall pos hd4 hs, hd4⟩
          · exact ih bs.tail t _ hd4 hs

theorem ffFollowGo_dir (w : Walls) :
    ∀ (p : List Cell) (bs : List Bool) (pos : Cell) (dir : Nat),
      dir < 4 → (ffFollowGo w p bs pos dir).2 < 4 := by
  intro p
  induction p with
  | nil => intro bs pos dir hd; exact hd
  | cons t rest ih =>
      intro bs pos dir hd
      unfold ffFollowGo
      cases hdt : dirTo pos t with
      | none => exact hd
      | some d =>
          dsimp only
          have hd4 : (turnActs dir d).foldl applyTurn dir < 4 := foldTurn_lt4 _ _ hd
          split
          · exact hd4
          · exact ih bs.tail t _ hd4

theorem moveToNextCellFF_sym (blocked : Bool) (s : StateFF) (hs : WallSym s.walls)
    (hd : s.dir < 4) :
    WallSym (moveToNextCellFF blocked s).1.walls ∧ (moveToNextCellFF blocked s).1.dir < 4 := by
  unfold moveToNextCellFF
  cases hc : chooseDirScan s.walls s.vis s.dist s.mode s.pos with
  | none => exact ⟨hs, hd⟩
  | some d =>
      dsimp only
      have hd4 : d < 4 := chooseDirScan_lt4 hc
      have hdir : (turnActs s.dir d).foldl applyTurn s.dir < 4 := foldTurn_lt4 _ _ hd
      split
      · exact ⟨WallSym_pairSet s.pos true hd4 hs, hdir⟩
      · exact ⟨hs, hdir⟩

theorem moveReturnScan_sym (blocked : Bool) (s2 : StateFF) (hs : WallSym s2.walls)
    (hd : s2.dir < 4) :
    WallSym (moveReturnScan blocked s2).1.walls ∧ (moveReturnScan blocked s2).1.dir < 4 := by
  unfold moveReturnScan
  cases hc : chooseDirScan s2.walls s2.vis s2.dist 1 s2.pos with
  | none => exact ⟨hs, hd⟩
  | some d =>
      dsimp only
      have hd4 : d < 4 := chooseDirScan_lt4 hc
      have hdir : (turnActs s2.dir d).foldl applyTurn s2.dir < 4 := foldTurn_lt4 _ _ hd
      split
      · exact ⟨WallSym_pairSet s2.pos true hd4 hs, hdir⟩
      · exact ⟨hs, hdir⟩

theorem moveToNextCellReturnFF_sym (f r l blocked : Bool) (s : StateFF)
    (hs : WallSym s.walls) (hd : s.dir < 4) :
    WallSym (moveToNextCellReturnFF f r l blocked s).1.walls ∧
      (moveToNextCellReturnFF f r l blocked s).1.dir < 4 := by
  unfold moveToNextCellReturnFF
  dsimp only
  apply moveReturnScan_sym
  · repeat' split
    all_goals first
    | exact WallSym_updateWallsFF f r l s.pos hd hs
    | exact hs
  · repeat' split
    all_goals exact hd

theorem ite_sym_ff (c : Prop) [inst : Decidable c] (A B : StateFF)
    (hA : WallSym A.walls ∧ A.dir < 4) (hB : WallSym B.walls ∧ B.dir < 4) :
    WallSym (if c then A else B).walls ∧ (if c then A else B).dir < 4 := by
  split
  · exact hA
  · exact hB

theorem updateDisplayFF_walls_eq (s : StateFF) : (updateDisplayFF s).walls = s.walls :=
  (displayFold_frame gridCells s).2.2.2.2.2.2.1

theorem updateDisplayFF_dir_eq (s : StateFF) : (updateDisplayFF s).dir = s.dir :=
  (displayFold_frame gridCells s).2.1

theorem updateDisplayFF_mode_eq (s : StateFF) : (updateDisplayFF s).mode = s.mode :=
  (displayFold_frame gridCells s).2.2.1

theorem updateDisplayFF_pos_eq (s : StateFF) : (updateDisplayFF s).pos = s.pos :=
  (displayFold_frame gridCells s).1

theorem updateDisplayFF_walls (s : StateFF) :
    (updateDisplayFF s).walls = s.walls ∧ (updateDisplayFF s).dir = s.dir := by
  obtain ⟨h1, h2, h3, h4, h5, h6, h7, h8, h9⟩ := displayFold_frame gridCells s
  exact ⟨h7, h2⟩

theorem ffGoalBranch_sym (s : StateFF) (hs : WallSym s.walls) (hd : s.dir < 4) :
    WallSym (ffGoalBranch s).walls ∧ (ffGoalBranch s).dir < 4 := by
  unfold ffGoalBranch
  dsimp only
  rw [(updateDisplayFF_walls _).1, (updateDisplayFF_walls _).2]
  exact ⟨hs, hd⟩

theorem recomputePathIfNeededFF_sym (f r l : Bool) (s : StateFF) (hs : WallSym s.walls)
    (hd : s.dir < 4) :
    WallSym (recomputePathIfNeededFF f r l s).walls ∧
      (recomputePathIfNeededFF f r l s).dir < 4 := by
  unfold recomputePathIfNeededFF
  dsimp only
  have hw : WallSym (updateWallsFF f r l s.pos s.dir s.walls) :=
    WallSym_updateWallsFF f r l s.pos hd hs
  exact ite_sym_ff _ _ _ ⟨hw, hd⟩ ⟨hw, hd⟩

theorem prepareForSpeedRunFF_sym (f r l f2 r2 l2 : Bool) (s : StateFF)
    (hs : WallSym s.walls) (hd : s.dir < 4) :
    WallSym (prepareForSpeedRunFF f r l f2 r2 l2 s).walls ∧
      (prepareForSpeedRunFF f r l f2 r2 l2 s).dir < 4 := by
  unfold prepareForSpeedRunFF
  split
  · exact ⟨hs, hd⟩
  · dsimp only
    exact recomputePathIfNeededFF_sym f2 r2 l2 _
      (WallSym_updateWallsFF f r l s.pos (by omega) hs) (by show 0 < 4; omega)

theorem ffReturnAtStartBranch_sym (f r l f2 r2 l2 : Bool) (s : StateFF)
    (hs : WallSym s.walls) (hd : s.dir < 4) :
    WallSym (ffReturnAtStartBranch f r l f2 r2 l2 s).walls ∧
      (ffReturnAtStartBranch f r l f2 r2 l2 s).dir < 4 := by
  unfold ffReturnAtStartBranch
  dsimp only
  have h := prepareForSpeedRunFF_sym f r l f2 r2 l2
    ((criticalPathsExploredFF (applyComputeShortestPathFF s)).2) hs hd
  exact ⟨h.1, h.2⟩

theorem followShortestPathFF_sym (f r l : Bool) (bs : List Bool) (s : StateFF)
    (hs : WallSym s.walls) (hd : s.dir < 4) :
    WallSym (followShortestPathFF f r l bs s).walls ∧
      (followShortestPathFF f r l bs s).dir < 4 := by
  unfold followShortestPathFF
  dsimp only
  exact ⟨WallSym_updateWallsFF f r l s.pos (by omega) hs,
    ffFollowGo_dir _ _ bs s.pos 0 (by omega)⟩

theorem ffSpeedBranch_sym (f r l f2 r2 l2 f3 r3 l3 : Bool) (bs : List Bool)
    (s : StateFF) (hs : WallSym s.walls) (hd : s.dir < 4) :
    WallSym (ffSpeedBranch f r l f2 r2 l2 f3 r3 l3 bs s).walls ∧
      (ffSpeedBranch f r l f2 r2 l2 f3 r3 l3 bs s).dir < 4 := by
  unfold ffSpeedBranch
  dsimp only
  have hp := prepareForSpeedRunFF_sym f r l f2 r2 l2 s hs hd
  cases hdt : dirTo (prepareForSpeedRunFF f r l f2 r2 l2 s).pos
      ((prepareForSpeedRunFF f r l f2 r2 l2 s).path.getD 1 (0, 0)) with
  | some d =>
      dsimp only
      split
      · exact hp
      · exact followShortestPathFF_sym f3 r3 l3 bs _ hp.1 hp.2
  | none => exact followShortestPathFF_sym f3 r3 l3 bs _ hp.1 hp.2

set_option maxRecDepth 40000 in
set_option maxHeartbeats 1600000 in
theorem ffTickBranch_sym (i : FFIn) (sa : StateFF) (hs : WallSym sa.walls)
    (hd : sa.dir < 4) :
    WallSym (ffTickBranch i sa).walls ∧ (ffTickBranch i sa).dir < 4 := by
  have hw : WallSym (updateWallsFF i.f i.r i.l sa.pos sa.dir sa.walls) :=
    WallSym_updateWallsFF _ _ _ _ hd hs
  unfold ffTickBranch
  simp only [updateDisplayFF_mode_eq, updateDisplayFF_pos_eq]
  split
  · split
    · exact ffGoalBranch_sym _
        (by rw [updateDisplayFF_walls_eq]; exact hw)
        (by rw [updateDisplayFF_dir_eq]; exact hd)
    · exact moveToNextCellFF_sym _ _
        (by dsimp only; rw [updateDisplayFF_walls_eq]; exact hw)
        (by dsimp only; rw [updateDisplayFF_dir_eq]; exact hd)
  · split
    · split
      · exact ffReturnAtStartBranch_sym _ _ _ _ _ _ _
          (by rw [updateDisplayFF_walls_eq]; exact hw)
          (by rw [updateDisplayFF_dir_eq]; exact hd)
      · exact moveToNextCellReturnFF_sym _ _ _ _ _
          (by rw [updateDisplayFF_walls_eq]; exact hw)
          (by rw [updateDisplayFF_dir_eq]; exact hd)
    · exact ffSpeedBranch_sym _ _ _ _ _ _ _ _ _ _ _
        (by rw [updateDisplayFF_walls_eq]; exact hw)
        (by rw [updateDisplayFF_dir_eq]; exact hd)

theorem ffTick_sym (i : FFIn) (s : StateFF) (hs : WallSym s.walls) (hd : s.dir < 4) :
    WallSym (ffTick i s).walls ∧ (ffTick i s).dir < 4 := by
  unfold ffTick
  apply ffTickBranch_sym
  · split
    · exact WallSym_boundary
    · exact hs
  · split
    · show 0 < 4
      omega
    · exact hd

theorem move_forward_update_state_sym (blocked : Bool) (s : StateV3)
    (hs : WallSym s.walls) (hd : s.dir < 4) :
    WallSym (move_forward_update_state blocked s).1.walls ∧
      (move_forward_update_state blocked s).1.dir < 4 := by
  unfold move_forward_update_state
  dsimp only
  have hdir : (turnActs s.dir (choose_next_direction s)).foldl applyTurn s.dir < 4 :=
    foldTurn_lt4 _ _ hd
  split
  · exact ⟨WallSym_set_wall s.pos hdir hs, hdir⟩
  · exact ⟨hs, hdir⟩

theorem returnAtStartV3_sym (f r l : Bool) (s : StateV3) (hs : WallSym s.walls)
    (hd : s.dir < 4) :
    WallSym (returnAtStartV3 f r l s).walls ∧ (returnAtStartV3 f r l s).dir < 4 := by
  unfold returnAtStartV3
  dsimp only
  have hw : WallSym (update_walls_v3 f r l s.pos s.dir s.walls) :=
    WallSym_update_walls_v3 f r l s.pos hd hs
  split
  · split
    · exact ⟨hw, hd⟩
    · exact ⟨hw, hd⟩
  · exact ⟨hw, hd⟩

theorem follow_shortest_path_sym (bs : List Bool) (s : StateV3) (hs : WallSym s.walls)
    (hd : s.dir < 4) :
    WallSym (follow_shortest_path bs s).walls ∧ (follow_shortest_path bs s).dir < 4 := by
  unfold follow_shortest_path
  split
  · exact ⟨hs, hd⟩
  · dsimp only
    have hd0 : (turnActs s.dir 0).foldl applyTurn s.dir < 4 := foldTurn_lt4 _ _ hd
    split
    · exact ⟨hs, hd0⟩
    · have h := v3FollowGo_sym s.walls s.path.tail bs s.pos _ hd0 hs
      exact ⟨h.1, h.2⟩

theorem v3TickBranch_sym (j : V3In) (sa : StateV3) (hs : WallSym sa.walls)
    (hd : sa.dir < 4) :
    WallSym (v3TickBranch j sa).walls ∧ (v3TickBranch j sa).dir < 4 := by
  have hw : WallSym (update_walls_v3 j.f j.r j.l sa.pos sa.dir sa.walls) :=
    WallSym_update_walls_v3 _ _ _ _ hd hs
  unfold v3TickBranch
  simp only [update_displayV3]
  split
  · split
    · exact ⟨hw, hd⟩
    · exact move_forward_update_state_sym _ _ hw hd
  · split
    · split
      · exact returnAtStartV3_sym _ _ _ _ hw hd
      · exact move_forward_update_state_sym _ _ hw hd
    · exact follow_shortest_path_sym _ _ hw hd

theorem v3Tick_sym (j : V3In) (s : StateV3) (hs : WallSym s.walls) (hd : s.dir < 4) :
    WallSym (v3Tick j s).walls ∧ (v3Tick j s).dir < 4 := by
  unfold v3Tick
  apply v3TickBranch_sym
  · split
    · exact WallSym_boundary
    · exact hs
  · split
    · show 0 < 4
      omega
    · exact hd

/-- C5: wall symmetry is an invariant of both programs.  The initial wall
states are symmetric, and one full main-loop iteration of either program
(any reset flag, sensor readings, and move outcomes) preserves both the
symmetry — every recorded wall flag agrees with the mirrored flag of its
in-bounds neighbor — and the orientation bound that every wall write relies
on.  Every wall write goes through ff.c `updateWalls`'s paired set/clear,
ff.c's blocked-move pair write, or ffv3.c `set_wall`, each of which writes
the mirror flag together with the flag itself. -/
theorem C5_wall_symmetry (i : FFIn) (j : V3In) (s : StateFF) (t : StateV3)
    (hs : WallSym s.walls) (hds : s.dir < 4)
    (ht : WallSym t.walls) (hdt : t.dir < 4) :
    WallSym initStateFF.walls ∧ WallSym initStateV3.walls ∧
      WallSym (ffTick i s).walls ∧ (ffTick i s).dir < 4 ∧
      WallSym (v3Tick j t).walls ∧ (v3Tick j t).dir < 4 := by
  obtain ⟨a1, a2⟩ := ffTick_sym i s hs hds
  obtain ⟨b1, b2⟩ := v3Tick_sym j t ht hdt
  exact ⟨WallSym_boundary, WallSym_boundary, a1, a2, b1, b2⟩

theorem C5_wall_symmetry_witness :
    (WallSym initStateFF.walls ∧ initStateFF.dir < 4 ∧
      WallSym initStateV3.walls ∧ initStateV3.dir < 4) ∧
      (WallSym initStateFF.walls ∧ WallSym initStateV3.walls ∧
        WallSym (ffTick ⟨false, false, false, false, false, false, false, false,
          false, false, false, false, false, false, []⟩ initStateFF).walls ∧
        (ffTick ⟨false, false, false, false, false, false, false, false, false,
          false, false, false, false, false, []⟩ initStateFF).dir < 4 ∧
        WallSym (v3Tick ⟨false, false, false, false, false, false, false, false, []⟩
          initStateV3).walls ∧
        (v3Tick ⟨false, false, false, false, false, false, false, false, []⟩
          initStateV3).dir < 4) :=
  have h1 : WallSym initStateFF.walls := by decide
  have h2 : WallSym initStateV3.walls := by decide
  ⟨⟨h1, by decide, h2, by decide⟩,
    C5_wall_symmetry _ _ initStateFF initStateV3 h1 (by decide) h2 (by decide)⟩

/-! ### C6: boundary permanence -/

theorem pairSet_mono {w : Walls} {p : Cell} {d : Nat} {c : Cell} {dd : Nat}
    (h : w c dd = true) : pairSet w p d true c dd = true := by
  unfold pairSet wset
  cases nbr p d with
  | none =>
      dsimp only
      split
      · rfl
      · exact h
  | some n =>
      dsimp only
      split
      · rfl
      · split
        · rfl
        · exact h

theorem set_wall_mono {w : Walls} {p : Cell} {d : Nat} {c : Cell} {dd : Nat}
    (h : w c dd = true) : set_wall w p d c dd = true := by
  unfold set_wall
  split
  · exact pairSet_mono h
  · exact h

theorem update_walls_v3_mono {w : Walls} (f r l : Bool) (p : Cell) (dir : Nat)
    {c : Cell} {dd : Nat} (h : w c dd = true) :
    update_walls_v3 f r l p dir w c dd = true := by
  unfold update_walls_v3
  split
  · refine set_wall_mono ?_
    split
    · refine set_wall_mono ?_
      split
      · exact set_wall_mono h
      · exact h
    · split
      · exact set_wall_mono h
      · exact h
  · split
    · refine set_wall_mono ?_
      split
      · exact set_wall_mono h
      · exact h
    · split
      · exact set_wall_mono h
      · exact h

theorem v3FollowGo_mono :
    ∀ (p : List Cell) (w : Walls) (bs : List Bool) (pos : Cell) (dir : Nat)
      {c : Cell} {dd : Nat}, w c dd = true → (v3FollowGo w p bs pos dir).1 c dd = true := by
  intro p
  induction p with
  | nil => intro w bs pos dir c dd h; exact h
  | cons t rest ih =>
      intro w bs pos dir c dd h
      unfold v3FollowGo
      cases dirTo pos t with
      | none => exact h
      | some d =>
          dsimp only
          split
          · exact set_wall_mono h
          · exact ih w bs.tail t _ h

theorem v3TickBranch_mono (i : V3In) (sa : StateV3) {c : Cell} {dd : Nat}
    (h : sa.walls c dd = true) : (v3TickBranch i sa).walls c dd = true := by
  have hw : update_walls_v3 i.f i.r i.l sa.pos sa.dir sa.walls c dd = true :=
    update_walls_v3_mono _ _ _ _ _ h
  unfold v3TickBranch
  simp only [update_displayV3]
  split
  · split
    · exact hw
    · unfold move_forward_update_state
      dsimp only
      split
      · exact set_wall_mono hw
      · exact hw
  · split
    · split
      · unfold returnAtStartV3
        dsimp only
        split
        · split
          · exact update_walls_v3_mono _ _ _ _ _ hw
          · exact update_walls_v3_mono _ _ _ _ _ hw
        · exact update_walls_v3_mono _ _ _ _ _ hw
      · unfold move_forward_update_state
        dsimp only
        split
        · exact set_wall_mono hw
        · exact hw
    · unfold follow_shortest_path
      split
      · exact hw
      · dsimp only
        split
        · exact hw
        · exact v3FollowGo_mono _ _ _ _ _ hw

theorem BoundaryRecorded_boundaryWalls : BoundaryRecorded boundaryWalls := by decide

theorem v3Tick_boundary (i : V3In) (s : StateV3) (hb : BoundaryRecorded s.walls) :
    BoundaryRecorded (v3Tick i s).walls := by
  unfold v3Tick
  intro k hk
  by_cases hres : i.wasReset = true
  · rw [if_pos hres]
    obtain ⟨h1, h2, h3, h4⟩ := BoundaryRecorded_boundaryWalls k hk
    exact ⟨v3TickBranch_mono i initStateV3 h1, v3TickBranch_mono i initStateV3 h2,
      v3TickBranch_mono i initStateV3 h3, v3TickBranch_mono i initStateV3 h4⟩
  · rw [if_neg hres]
    obtain ⟨h1, h2, h3, h4⟩ := hb k hk
    exact ⟨v3TickBranch_mono i s h1, v3TickBranch_mono i s h2,
      v3TickBranch_mono i s h3, v3TickBranch_mono i s h4⟩

theorem v3Run_boundary (m : List V3In) (s : StateV3) (hb : BoundaryRecorded s.walls) :
    BoundaryRecorded (v3Run m s).walls := by
  induction m generalizing s with
  | nil => exact hb
  | cons i rest ih => exact ih (v3Tick i s) (v3Tick_boundary i s hb)

theorem nbr_bS (k : Nat) : nbr (k, 0) 2 = none := by
  have h2 : dyI 2 = -1 := rfl
  have h1 : dxI 2 = 0 := rfl
  unfold nbr
  dsimp only
  rw [if_neg (by omega)]

theorem nbr_bN (k : Nat) : nbr (k, 15) 0 = none := by
  have h2 : dyI 0 = 1 := rfl
  have h1 : dxI 0 = 0 := rfl
  unfold nbr
  dsimp only
  rw [if_neg (by omega)]

theorem nbr_bW (k : Nat) : nbr (0, k) 3 = none := by
  have h2 : dyI 3 = 0 := rfl
  have h1 : dxI 3 = -1 := rfl
  unfold nbr
  dsimp only
  rw [if_neg (by omega)]

theorem nbr_bE (k : Nat) : nbr (15, k) 1 = none := by
  have h2 : dyI 1 = 0 := rfl
  have h1 : dxI 1 = 1 := rfl
  unfold nbr
  dsimp only
  rw [if_neg (by omega)]

theorem pairSet_boundary {w : Walls} {pos : Cell} {d : Nat} {b : Bool}
    (hb : BoundaryRecorded w) (hpos : inB pos = true) (hd : d < 4)
    (hcond : ((nbr pos d).isSome || b) = true) :
    BoundaryRecorded (pairSet w pos d b) := by
  intro k hk
  obtain ⟨h1, h2, h3, h4⟩ := hb k hk
  cases hn : nbr pos d with
  | none =>
      have hbt : b = true := by
        rw [hn] at hcond
        simpa using hcond
      rw [hbt]
      exact ⟨pairSet_mono h1, pairSet_mono h2, pairSet_mono h3, pairSet_mono h4⟩
  | some n =>
      have hmir : nbr n (opp d) = some pos := by
        obtain ⟨hx1, hy1⟩ := nbr_coords hn
        obtain ⟨ho1, ho2⟩ := dxI_opp d hd
        refine nbr_some_of_bounds ?_ ?_ hpos
        · rw [ho1]
          omega
        · rw [ho2]
          omega
      rw [pairSet_eval_some hn, pairSet_eval_some hn, pairSet_eval_some hn,
        pairSet_eval_some hn]
      refine ⟨?_, ?_, ?_, ?_⟩
      · rw [if_neg ?_, if_neg ?_]
        · exact h1
        · rintro ⟨hce, hde⟩
          rw [← hce, ← hde, nbr_bS k] at hn
          exact Option.noConfusion hn
        · rintro ⟨hce, hde⟩
          rw [← hce, ← hde, nbr_bS k] at hmir
          exact Option.noConfusion hmir
      · rw [if_neg ?_, if_neg ?_]
        · exact h2
        · rintro ⟨hce, hde⟩
          rw [← hce, ← hde, nbr_bN k] at hn
          exact Option.noConfusion hn
        · rintro ⟨hce, hde⟩
          rw [← hce, ← hde, nbr_bN k] at hmir
          exact Option.noConfusion hmir
      · rw [if_neg ?_, if_neg ?_]
        · exact h3
        · rintro ⟨hce, hde⟩
          rw [← hce, ← hde, nbr_bW k] at hn
          exact Option.noConfusion hn
        · rintro ⟨hce, hde⟩
          rw [← hce, ← hde, nbr_bW k] at hmir
          exact Option.noConfusion hmir
      · rw [if_neg ?_, if_neg ?_]
        · exact h4
        · rintro ⟨hce, hde⟩
          rw [← hce, ← hde, nbr_bE k] at hn
          exact Option.noConfusion hn
        · rintro ⟨hce, hde⟩
          rw [← hce, ← hde, nbr_bE k] at hmir
          exact Option.noConfusion hmir

theorem updateWallsFF_boundary {w : Walls} (f r l : Bool) (pos : Cell) {dir : Nat}
    (hb : BoundaryRecorded w) (hpos : inB pos = true) (hd : dir < 4)
    (hsense : senseOK pos dir f r l = true) :
    BoundaryRecorded (updateWallsFF f r l pos dir w) := by
  simp only [senseOK, Bool.and_eq_true] at hsense
  unfold updateWallsFF
  dsimp only
  exact pairSet_boundary (pairSet_boundary (pairSet_boundary hb hpos hd hsense.1.1)
    hpos (Nat.mod_lt _ (by omega)) hsense.1.2) hpos (Nat.mod_lt _ (by omega)) hsense.2

theorem chooseStepFF_nbr (w : Walls) (vis : Visited) (D : DGrid) (mode : Nat)
    (pos : Cell) (acc : Int × Option Nat) (d : Nat) :
    (chooseStepFF w vis D mode pos acc d).2 = acc.2 ∨
      ((chooseStepFF w vis D mode pos acc d).2 = some d ∧ (nbr pos d).isSome = true) := by
  unfold chooseStepFF
  by_cases hw : w pos d = true
  · left
    rw [if_pos hw]
  · rw [if_neg hw]
    cases hn : nbr pos d with
    | none => left; rfl
    | some n =>
        dsimp only
        split
        · right
          exact ⟨rfl, rfl⟩
        · left
          rfl

theorem chooseDirScan_nbr {w : Walls} {vis : Visited} {D : DGrid} {mode : Nat}
    {pos : Cell} {d : Nat} (h : chooseDirScan w vis D mode pos = some d) :
    (nbr pos d).isSome = true := by
  unfold chooseDirScan at h
  rcases chooseStepFF_nbr w vis D mode pos _ 3 with h4 | ⟨h4, hn4⟩
  all_goals rw [h4] at h
  · rcases chooseStepFF_nbr w vis D mode pos _ 2 with h3 | ⟨h3, hn3⟩
    all_goals rw [h3] at h
    · rcases chooseStepFF_nbr w vis D mode pos _ 1 with h2 | ⟨h2, hn2⟩
      all_goals rw [h2] at h
      · rcases chooseStepFF_nbr w vis D mode pos _ 0 with h1 | ⟨h1, hn1⟩
        all_goals rw [h1] at h
        · exact Option.noConfusion h
        · have he := Option.some.inj h
          rw [← he]
          exact hn1
      · have he := Option.some.inj h
        rw [← he]
        exact hn2
    · have he := Option.some.inj h
      rw [← he]
      exact hn3
  · have he := Option.some.inj h
    rw [← he]
    exact hn4

theorem rawStep_nbr {pos n : Cell} {d : Nat} (h : nbr pos d = some n) :
    rawStep pos d = n := by
  unfold nbr at h
  dsimp only at h
  unfold rawStep
  by_cases hc : (0 ≤ (pos.1 : Int) + dxI d ∧ (pos.1 : Int) + dxI d < 16 ∧
      0 ≤ (pos.2 : Int) + dyI d ∧ (pos.2 : Int) + dyI d < 16)
  · rw [if_pos hc] at h
    exact Option.some.inj h
  · rw [if_neg hc] at h
    exact absurd h (by simp)

theorem scanStepFF_nbr (w : Walls) (D : DGrid) (c : Cell) (acc : Int × Option Cell)
    (d : Nat) :
    (scanStepFF w D c acc d).2 = acc.2 ∨
      ∃ n, (scanStepFF w D c acc d).2 = some n ∧ nbr c d = some n := by
  unfold scanStepFF
  by_cases hw : w c d = true
  · left
    rw [if_pos hw]
  · rw [if_neg hw]
    cases hn : nbr c d with
    | none => left; rfl
    | some n =>
        dsimp only
        split
        · right
          exact ⟨n, rfl, rfl⟩
        · left
          rfl

theorem scanNextFF_inB {w : Walls} {D : DGrid} {c n : Cell}
    (h : scanNextFF w D c = some n) : inB n = true := by
  unfold scanNextFF at h
  rcases scanStepFF_nbr w D c _ 3 with h4 | ⟨m, h4, hn4⟩
  all_goals rw [h4] at h
  · rcases scanStepFF_nbr w D c _ 2 with h3 | ⟨m, h3, hn3⟩
    all_goals rw [h3] at h
    · rcases scanStepFF_nbr w D c _ 1 with h2 | ⟨m, h2, hn2⟩
      all_goals rw [h2] at h
      · rcases scanStepFF_nbr w D c _ 0 with h1 | ⟨m, h1, hn1⟩
        all_goals rw [h1] at h
        · exact Option.noConfusion h
        · rw [← Option.some.inj h]
          exact nbr_inB hn1
      · rw [← Option.some.inj h]
        exact nbr_inB hn2
    · rw [← Option.some.inj h]
      exact nbr_inB hn3
  · rw [← Option.some.inj h]
    exact nbr_inB hn4

theorem ffWalk_inB (w : Walls) (D : DGrid) :
    ∀ (fuel : Nat) (c : Cell) (acc : List Cell),
      (∀ x ∈ acc, inB x = true) → ∀ x ∈ ffWalk w D fuel c acc, inB x = true := by
  intro fuel
  induction fuel with
  | zero => intro c acc hacc; exact hacc
  | succ f ih =>
      intro c acc hacc
      unfold ffWalk
      split
      · exact hacc
      · cases hn : scanNextFF w D c with
        | none => exact hacc
        | some n =>
            refine ih n (acc ++ [n]) ?_
            intro x hx
            rcases List.mem_append.mp hx with hx | hx
            · exact hacc x hx
            · rw [List.mem_singleton.mp hx]
              exact scanNextFF_inB hn

theorem computeShortestPathFF_inB (w : Walls) (pos : Cell) :
    ∀ x ∈ computeShortestPathFF w pos, inB x = true := by
  unfold computeShortestPathFF
  refine ffWalk_inB w _ 600 (0, 0) [(0, 0)] ?_
  intro x hx
  rw [List.mem_singleton.mp hx]
  rfl

theorem ffFollowGo_pos (w : Walls) :
    ∀ (p : List Cell) (bs : List Bool) (pos : Cell) (dir : Nat),
      inB pos = true → (∀ x ∈ p, inB x = true) →
      inB (ffFollowGo w p bs pos dir).1 = true := by
  intro p
  induction p with
  | nil => intro bs pos dir hp _; exact hp
  | cons t rest ih =>
      intro bs pos dir hp hall
      unfold ffFollowGo
      cases dirTo pos t with
      | none => exact hp
      | some d =>
          dsimp only
          split
          · exact hp
          · exact ih bs.tail t _ (hall t (List.mem_cons_self t rest))
              (fun x hx => hall x (List.mem_cons_of_mem t hx))

theorem FFInv_ite (c : Prop) [inst : Decidable c] (A B : StateFF)
    (hA : FFInv A) (hB : FFInv B) : FFInv (if c then A else B) := by
  split
  · exact hA
  · exact hB

theorem pos_ite (c : Prop) [inst : Decidable c] (A B : StateFF) (p : Cell)
    (hA : A.pos = p) (hB : B.pos = p) : (if c then A else B).pos = p := by
  split
  · exact hA
  · exact hB

theorem BoundaryRecorded_pairSet_true {w : Walls} (p : Cell) (d : Nat)
    (hb : BoundaryRecorded w) : BoundaryRecorded (pairSet w p d true) := by
  intro k hk
  obtain ⟨h1, h2, h3, h4⟩ := hb k hk
  exact ⟨pairSet_mono h1, pairSet_mono h2, pairSet_mono h3, pairSet_mono h4⟩

theorem updateDisplayFF_path_eq (s : StateFF) : (updateDisplayFF s).path = s.path :=
  (displayFold_frame gridCells s).2.2.2.2.2.2.2.2

theorem applyCompute_inv (s : StateFF) (h : FFInv s) :
    FFInv (applyComputeShortestPathFF s) := by
  obtain ⟨hb, hsym, hpos, hpath, hdir⟩ := h
  refine ⟨hb, hsym, hpos, ?_, hdir⟩
  intro x hx
  refine ffWalk_inB s.walls _ 600 (0, 0) [(0, 0)] ?_ x hx
  intro y hy
  rw [List.mem_singleton.mp hy]
  rfl

theorem critical_inv (s : StateFF) (h : FFInv s) :
    FFInv (criticalPathsExploredFF s).2 := by
  obtain ⟨hb, hsym, hpos, hpath, hdir⟩ := h
  exact ⟨hb, hsym, hpos, hpath, hdir⟩

theorem moveToNextCellFF_inv (blocked : Bool) (s : StateFF) (h : FFInv s) :
    FFInv (moveToNextCellFF blocked s).1 := by
  obtain ⟨hb, hsym, hpos, hpath, hdir⟩ := h
  unfold moveToNextCellFF
  cases hc : chooseDirScan s.walls s.vis s.dist s.mode s.pos with
  | none => exact ⟨hb, hsym, hpos, hpath, hdir⟩
  | some d =>
      dsimp only
      have hd4 : d < 4 := chooseDirScan_lt4 hc
      have hdir' : (turnActs s.dir d).foldl applyTurn s.dir < 4 := foldTurn_lt4 _ _ hdir
      split
      · exact ⟨BoundaryRecorded_pairSet_true s.pos d hb,
          WallSym_pairSet s.pos true hd4 hsym, hpos, hpath, hdir'⟩
      · refine ⟨hb, hsym, ?_, hpath, hdir'⟩
        obtain ⟨n, hn⟩ := Option.isSome_iff_exists.mp (chooseDirScan_nbr hc)
        rw [rawStep_nbr hn]
        exact nbr_inB hn

theorem moveReturnScan_inv (blocked : Bool) (s2 : StateFF)
    (hb : BoundaryRecorded s2.walls) (hsym : WallSym s2.walls) (hpos : inB s2.pos = true)
    (hpath : ∀ c ∈ s2.path, inB c = true) (hdir : s2.dir < 4) :
    FFInv (moveReturnScan blocked s2).1 := by
  unfold moveReturnScan
  cases hc : chooseDirScan s2.walls s2.vis s2.dist 1 s2.pos with
  | none => exact ⟨hb, hsym, hpos, hpath, hdir⟩
  | some d =>
      dsimp only
      have hd4 : d < 4 := chooseDirScan_lt4 hc
      have hdir' : (turnActs s2.dir d).foldl applyTurn s2.dir < 4 := foldTurn_lt4 _ _ hdir
      split
      · exact ⟨BoundaryRecorded_pairSet_true s2.pos d hb,
          WallSym_pairSet s2.pos true hd4 hsym, hpos, hpath, hdir'⟩
      · refine ⟨hb, hsym, ?_, hpath, hdir'⟩
        obtain ⟨n, hn⟩ := Option.isSome_iff_exists.mp (chooseDirScan_nbr hc)
        rw [rawStep_nbr hn]
        exact nbr_inB hn

theorem moveToNextCellReturnFF_inv (f r l blocked : Bool) (s : StateFF) (h : FFInv s)
    (hsense : senseOK s.pos s.dir f r l = true) :
    FFInv (moveToNextCellReturnFF f r l blocked s).1 := by
  obtain ⟨hb, hsym, hpos, hpath, hdir⟩ := h
  unfold moveToNextCellReturnFF
  dsimp only
  apply moveReturnScan_inv
  · repeat' split
    all_goals first
    | exact updateWallsFF_boundary f r l s.pos hb hpos hdir hsense
    | exact hb
  · repeat' split
    all_goals first
    | exact WallSym_updateWallsFF f r l s.pos hdir hsym
    | exact hsym
  · repeat' split
    all_goals exact hpos
  · repeat' split
    all_goals exact hpath
  · repeat' split
    all_goals exact hdir

theorem recompute_inv (f r l : Bool) (s : StateFF) (h : FFInv s)
    (hsense : senseOK s.pos s.dir f r l = true) :
    FFInv (recomputePathIfNeededFF f r l s) := by
  obtain ⟨hb, hsym, hpos, hpath, hdir⟩ := h
  have hbW : BoundaryRecorded (updateWallsFF f r l s.pos s.dir s.walls) :=
    updateWallsFF_boundary f r l s.pos hb hpos hdir hsense
  have hsW : WallSym (updateWallsFF f r l s.pos s.dir s.walls) :=
    WallSym_updateWallsFF f r l s.pos hdir hsym
  unfold recomputePathIfNeededFF
  dsimp only
  refine FFInv_ite _ _ _ ?_ ⟨hbW, hsW, hpos, hpath, hdir⟩
  refine applyCompute_inv _ ⟨hbW, hsW, hpos, hpath, hdir⟩

theorem recompute_pos_eq (f r l : Bool) (s : StateFF) :
    (recomputePathIfNeededFF f r l s).pos = s.pos := by
  unfold recomputePathIfNeededFF
  dsimp only
  exact pos_ite _ _ _ _ rfl rfl

theorem prepare_inv (f r l f2 r2 l2 : Bool) (s : StateFF) (h : FFInv s)
    (hs1 : senseOK s.pos 0 f r l = true) (hs2 : senseOK s.pos 0 f2 r2 l2 = true) :
    FFInv (prepareForSpeedRunFF f r l f2 r2 l2 s) := by
  obtain ⟨hb, hsym, hpos, hpath, hdir⟩ := h
  unfold prepareForSpeedRunFF
  split
  · exact ⟨hb, hsym, hpos, hpath, hdir⟩
  · dsimp only
    refine recompute_inv f2 r2 l2 _
      ⟨updateWallsFF_boundary f r l s.pos hb hpos (by omega) hs1,
        WallSym_updateWallsFF f r l s.pos (by omega) hsym, hpos, hpath,
        by show 0 < 4; omega⟩ hs2

theorem prepare_pos_eq (f r l f2 r2 l2 : Bool) (s : StateFF) :
    (prepareForSpeedRunFF f r l f2 r2 l2 s).pos = s.pos := by
  unfold prepareForSpeedRunFF
  dsimp only
  refine pos_ite _ _ _ _ rfl ?_
  exact recompute_pos_eq f2 r2 l2 _

theorem ffReturnAtStartBranch_inv (f r l f2 r2 l2 : Bool) (s : StateFF) (h : FFInv s)
    (hsA : senseOK s.pos 0 f r l = true) (hsB : senseOK s.pos 0 f2 r2 l2 = true) :
    FFInv (ffReturnAtStartBranch f r l f2 r2 l2 s) := by
  unfold ffReturnAtStartBranch
  dsimp only
  have h1 := applyCompute_inv s h
  have h2 := critical_inv _ h1
  have h3 := prepare_inv f r l f2 r2 l2 _ h2 hsA hsB
  exact ⟨h3.1, h3.2.1, h3.2.2.1, h3.2.2.2.1, h3.2.2.2.2⟩

theorem followShortestPathFF_inv (f r l : Bool) (bs : List Bool) (s : StateFF)
    (h : FFInv s) (hsense : senseOK s.pos 0 f r l = true) :
    FFInv (followShortestPathFF f r l bs s) := by
  obtain ⟨hb, hsym, hpos, hpath, hdir⟩ := h
  unfold followShortestPathFF
  dsimp only
  refine ⟨updateWallsFF_boundary f r l s.pos hb hpos (by omega) hsense,
    WallSym_updateWallsFF f r l s.pos (by omega) hsym, ?_, hpath,
    ffFollowGo_dir _ _ bs s.pos 0 (by omega)⟩
  refine ffFollowGo_pos _ _ bs s.pos 0 hpos ?_
  intro x hx
  exact hpath x (List.tail_subset _ hx)

theorem ffSpeedBranch_inv (f r l f2 r2 l2 f3 r3 l3 : Bool) (bs : List Bool)
    (s : StateFF) (h : FFInv s) (hsA : senseOK s.pos 0 f r l = true)
    (hsB : senseOK s.pos 0 f2 r2 l2 = true) (hsC : senseOK s.pos 0 f3 r3 l3 = true) :
    FFInv (ffSpeedBranch f r l f2 r2 l2 f3 r3 l3 bs s) := by
  unfold ffSpeedBranch
  dsimp only
  have hp := prepare_inv f r l f2 r2 l2 s h hsA hsB
  have hsC' : senseOK (prepareForSpeedRunFF f r l f2 r2 l2 s).pos 0 f3 r3 l3 = true := by
    rw [prepare_pos_eq]
    exact hsC
  cases hdt : dirTo (prepareForSpeedRunFF f r l f2 r2 l2 s).pos
      ((prepareForSpeedRunFF f r l f2 r2 l2 s).path.getD 1 (0, 0)) with
  | some d =>
      dsimp only
      split
      · exact hp
      · exact followShortestPathFF_inv f3 r3 l3 bs _ hp hsC'
  | none => exact followShortestPathFF_inv f3 r3 l3 bs _ hp hsC'

theorem ffGoalBranch_inv (s : StateFF) (h : FFInv s) : FFInv (ffGoalBranch s) := by
  obtain ⟨hb, hsym, hpos, hpath, hdir⟩ := h
  unfold ffGoalBranch
  dsimp only
  refine ⟨?_, ?_, ?_, ?_, ?_⟩
  · rw [updateDisplayFF_walls_eq]
    exact hb
  · rw [updateDisplayFF_walls_eq]
    exact hsym
  · rw [updateDisplayFF_pos_eq]
    exact hpos
  · rw [updateDisplayFF_path_eq]
    exact hpath
  · rw [updateDisplayFF_dir_eq]
    exact hdir

theorem updateDisplayFF_inv (s : StateFF) (h : FFInv s) : FFInv (updateDisplayFF s) := by
  obtain ⟨hb, hsym, hpos, hpath, hdir⟩ := h
  refine ⟨?_, ?_, ?_, ?_, ?_⟩
  · rw [updateDisplayFF_walls_eq]
    exact hb
  · rw [updateDisplayFF_walls_eq]
    exact hsym
  · rw [updateDisplayFF_pos_eq]
    exact hpos
  · rw [updateDisplayFF_path_eq]
    exact hpath
  · rw [updateDisplayFF_dir_eq]
    exact hdir

set_option maxRecDepth 40000 in
set_option maxHeartbeats 1600000 in
theorem ffTickBranch_inv (i : FFIn) (sa : StateFF) (h : FFInv sa)
    (hs0 : senseOK sa.pos sa.dir i.f i.r i.l = true)
    (hs2 : senseOK sa.pos 0 i.f2 i.r2 i.l2 = true)
    (hs3 : senseOK sa.pos 0 i.f3 i.r3 i.l3 = true)
    (hs4 : senseOK sa.pos 0 i.f4 i.r4 i.l4 = true) :
    FFInv (ffTickBranch i sa) := by
  obtain ⟨hb, hsym, hpos, hpath, hdir⟩ := h
  have hbW := updateWallsFF_boundary i.f i.r i.l sa.pos hb hpos hdir hs0
  have hsW := WallSym_updateWallsFF i.f i.r i.l sa.pos hdir hsym
  unfold ffTickBranch
  simp only [updateDisplayFF_mode_eq, updateDisplayFF_pos_eq]
  split
  · split
    · refine ffGoalBranch_inv _ ?_
      refine ⟨?_, ?_, ?_, ?_, ?_⟩
      all_goals try simp only [updateDisplayFF_walls_eq, updateDisplayFF_pos_eq,
        updateDisplayFF_path_eq, updateDisplayFF_dir_eq]
      exacts [hbW, hsW, hpos, hpath, hdir]
    · refine moveToNextCellFF_inv _ _ ?_
      refine ⟨?_, ?_, ?_, ?_, ?_⟩
      all_goals try simp only [updateDisplayFF_walls_eq, updateDisplayFF_pos_eq,
        updateDisplayFF_path_eq, updateDisplayFF_dir_eq]
      exacts [hbW, hsW, hpos, hpath, hdir]
  · split
    · split
      · refine ffReturnAtStartBranch_inv _ _ _ _ _ _ _ ?_
          (by try simp only [updateDisplayFF_pos_eq]
              exact hs2)
          (by try simp only [updateDisplayFF_pos_eq]
              exact hs3)
        refine ⟨?_, ?_, ?_, ?_, ?_⟩
        all_goals try simp only [updateDisplayFF_walls_eq, updateDisplayFF_pos_eq,
          updateDisplayFF_path_eq, updateDisplayFF_dir_eq]
        exacts [hbW, hsW, hpos, hpath, hdir]
      · refine moveToNextCellReturnFF_inv _ _ _ _ _ ?_
          (by try simp only [updateDisplayFF_pos_eq, updateDisplayFF_dir_eq]
              exact hs0)
        refine ⟨?_, ?_, ?_, ?_, ?_⟩
        all_goals try simp only [updateDisplayFF_walls_eq, updateDisplayFF_pos_eq,
          updateDisplayFF_path_eq, updateDisplayFF_dir_eq]
        exacts [hbW, hsW, hpos, hpath, hdir]
    · refine ffSpeedBranch_inv _ _ _ _ _ _ _ _ _ _ _ ?_
        (by try simp only [updateDisplayFF_pos_eq]
            exact hs2)
        (by try simp only [updateDisplayFF_pos_eq]
            exact hs3)
        (by try simp only [updateDisplayFF_pos_eq]
            exact hs4)
      refine ⟨?_, ?_, ?_, ?_, ?_⟩
      all_goals try simp only [updateDisplayFF_walls_eq, updateDisplayFF_pos_eq,
        updateDisplayFF_path_eq, updateDisplayFF_dir_eq]
      exacts [hbW, hsW, hpos, hpath, hdir]

set_option maxRecDepth 40000 in
set_option maxHeartbeats 1600000 in
theorem ffTick_inv (i : FFIn) (s : StateFF) (h : FFInv s)
    (hok : ffTickOK i s = true) : FFInv (ffTick i s) := by
  simp only [ffTickOK, Bool.and_eq_true] at hok
  unfold ffTick
  refine ffTickBranch_inv i _ ?_ hok.1.1.1 hok.1.1.2 hok.1.2 hok.2
  split
  · refine ⟨BoundaryRecorded_boundaryWalls, WallSym_boundary, rfl, ?_, by show 0 < 4; omega⟩
    intro c hc
    exact absurd hc (List.not_mem_nil c)
  · exact h

set_option maxRecDepth 40000 in
set_option maxHeartbeats 1600000 in
theorem ffRun_inv : ∀ (l : List FFIn) (s : StateFF), FFInv s → ffRunOK l s →
    FFInv (ffRun l s) := by
  intro l
  induction l with
  | nil => intro s h _; exact h
  | cons i rest ih =>
      intro s h hok
      have h1 : ffTickOK i s = true := hok.1
      have h2 : ffRunOK rest (ffTick i s) := hok.2
      unfold ffRun
      rw [List.foldl_cons]
      exact ih (ffTick i s) (ffTick_inv i s h h1) h2

/-- C6: boundary permanence.  Both initializations record every boundary
edge.  ffv3.c never clears any wall, so every boundary edge stays recorded
across every sequence of main-loop iterations (a mid-run reset re-records
them), with no assumption on the sensors.  ff.c's `updateWalls` clears
unsensed flags, so its permanence additionally needs every tick's sensor
readings to be boundary-consistent (`ffRunOK`: a sensor never reports "no
wall" across a grid-boundary edge) together with the reachable-state
invariants that the position, recorded path cells, and orientation are in
range; a boundary-inconsistent reading does clear a boundary wall (refuted
separately). -/
theorem C6_boundary_permanence (l : List FFIn) (m : List V3In) (s : StateFF)
    (t : StateV3) (hb : BoundaryRecorded s.walls) (hsym : WallSym s.walls)
    (hpos : inB s.pos = true) (hpath : ∀ c ∈ s.path, inB c = true) (hdir : s.dir < 4)
    (hrun : ffRunOK l s) (ht : BoundaryRecorded t.walls) :
    BoundaryRecorded initStateFF.walls ∧ BoundaryRecorded initStateV3.walls ∧
      BoundaryRecorded (ffRun l s).walls ∧ BoundaryRecorded (v3Run m t).walls :=
  ⟨BoundaryRecorded_boundaryWalls, BoundaryRecorded_boundaryWalls,
    (ffRun_inv l s ⟨hb, hsym, hpos, hpath, hdir⟩ hrun).1, v3Run_boundary m t ht⟩

set_option maxRecDepth 2000000 in
set_option maxHeartbeats 8000000 in
theorem C6_boundary_permanence_witness :
    (BoundaryRecorded initStateFF.walls ∧ WallSym initStateFF.walls ∧
      inB initStateFF.pos = true ∧ (∀ c ∈ initStateFF.path, inB c = true) ∧
      initStateFF.dir < 4 ∧ BoundaryRecorded initStateV3.walls ∧
      ffRunOK [⟨false, false, false, true, false, false, false, true, false, false,
        true, false, false, true, []⟩] initStateFF) ∧
      (BoundaryRecorded initStateFF.walls ∧ BoundaryRecorded initStateV3.walls ∧
        BoundaryRecorded (ffRun [⟨false, false, false, true, false, false, false, true,
          false, false, true, false, false, true, []⟩] initStateFF).walls ∧
        BoundaryRecorded (v3Run [⟨false, false, false, false, false, false, false,
          false, []⟩] initStateV3).walls) :=
  have hrun : ffRunOK [⟨false, false, false, true, false, false, false, true, false,
      false, true, false, false, true, []⟩] initStateFF :=
    ⟨by decide, trivial⟩
  ⟨⟨by decide, by decide, by decide, by decide, by decide, by decide, hrun⟩,
    C6_boundary_permanence _ _ initStateFF initStateV3 (by decide) (by decide)
      (by decide) (by decide) (by decide) hrun (by decide)⟩

set_option maxRecDepth 2000000 in
set_option maxHeartbeats 8000000 in
/-- C6 counterexample: in ff.c a single boundary-inconsistent sensor
reading clears a boundary wall.  From the initial state, one tick whose
left sensor reads false (the pose faces north at `(0,0)`, so the left
neighbor is outside the grid) makes `updateWalls` clear the west wall of
`(0,0)`; the consistency predicate flags exactly this reading. -/
theorem C6_counterexample :
    initStateFF.walls (0, 0) 3 = true ∧
      (ffTick ⟨false, false, false, false, false, false, false, false, false, false,
        false, false, false, false, []⟩ initStateFF).walls (0, 0) 3 = false ∧
      ffTickOK ⟨false, false, false, false, false, false, false, false, false, false,
        false, false, false, false, []⟩ initStateFF = false := by
  refine ⟨by decide, by decide, by decide⟩
